import Mathlib

/-!
# GobLang: the stack machine of `src/execution/Machine.cpp`

A shallow embedding of the byte-code interpreter.  The machine state is a
record, every opcode handler is a function from states to outcomes, and a
C++ exception is an outcome that carries the state the machine was left in
when the exception escaped the handler.

Conventions

* `std::vector` is a `List` whose last element is the back of the vector, so
  the top of the operand stack is the last element of the list.
* `int32_t` is an `Int`, arithmetic results are wrapped into the 32-bit
  two's-complement range by `wrapInt32`.
* `MemoryNode *` is the position of the node in the intrusive list that hangs
  off `m_memoryRoot`; nodes are only ever appended by the code in
  `Machine.cpp`, so positions are stable.
* `std::string` is `String`, `std::map<std::string, MemoryValue>` is an
  association list with at most one entry read per key.
-/

namespace SimpleLang

/-! ## Values -/

/-- Modelled from the spec: `Type.hpp` is not among the sources.  The tag kept in
`MemoryValue::type`; `Machine.cpp` writes `Int`, `MemoryObj` and
`NativeFunction`, the other tags are the ones the data model lists. -/
inductive TypeTag
  | Null
  | Bool
  | Char
  | Float
  | Int
  | MemoryObj
  | NativeFunction
  deriving DecidableEq

/-- Modelled from the spec: `Value.hpp` is not among the sources.  The `std::variant`
behind `MemoryValue::value`.  `Machine.cpp` reads the alternatives `int32_t`
(`int`), `MemoryNode *` (`ref`, a position in the heap list) and
`FunctionValue` (`native`, the identity of a host callable); a float is kept
as its bit pattern. -/
inductive Value
  | null
  | bool (b : Bool)
  | char (c : Char)
  | float (bits : Nat)
  | int (i : Int)
  | ref (p : Nat)
  | native (f : Nat)
  deriving DecidableEq

/-- The pair `MemoryValue{.type = ..., .value = ...}` built by the handlers. -/
structure MemoryValue where
  type : TypeTag
  value : Value
  deriving DecidableEq

/-- The literal `MemoryValue{.type = Type::Int, .value = c}`. -/
def MemoryValue.ofInt (c : Int) : MemoryValue := ⟨TypeTag.Int, Value.int c⟩

/-- The literal `MemoryValue{.type = Type::MemoryObj, .value = node}`. -/
def MemoryValue.ofNode (p : Nat) : MemoryValue := ⟨TypeTag.MemoryObj, Value.ref p⟩

/-- The literal `MemoryValue{.type = Type::NativeFunction, .value = func}`. -/
def MemoryValue.ofFunction (f : Nat) : MemoryValue := ⟨TypeTag.NativeFunction, Value.native f⟩

/-- Modelled from the spec: `Memory.hpp` and `Array.hpp` are not among the sources.
A heap object reached through a `MemoryNode *`: `dynamic_cast<StringNode *>`
succeeds exactly on `StringNode`, `dynamic_cast<ArrayNode *>` exactly on
`ArrayNode`. -/
inductive MemoryNode
  | StringNode (str : String)
  | ArrayNode (data : List MemoryValue)
  deriving DecidableEq

/-- The test `std::holds_alternative<MemoryNode *>(v)`. -/
def holdsMemoryNode : Value → Bool
  | Value.ref _ => true
  | _ => false

/-- The test `std::holds_alternative<FunctionValue>(v)`. -/
def holdsFunctionValue : Value → Bool
  | Value.native _ => true
  | _ => false

/-- The value range of `int32_t`. -/
def isInt32 (x : Int) : Prop := -2147483648 ≤ x ∧ x ≤ 2147483647

instance (x : Int) : Decidable (isInt32 x) := by
  unfold isInt32; exact inferInstance

/-- The 32-bit two's-complement representative of an integer: what an
`int32_t` holds after `+` or `-`. -/
def wrapInt32 (x : Int) : Int := (x + 2147483648) % 4294967296 - 2147483648

/-! ## Errors and outcomes -/

/-- What a handler can raise.  `UndefinedVariable`, `NotCallable` and
`TypeMismatch` are the three `throw RuntimeException(...)` sites of
`Machine.cpp` (`_get`, `_call`, `_getArray`/`_setArray`, the last carrying
the tag printed by `typeToString(array.type)`); `IndexOutOfRange` is raised
by the array object; `BadVariantAccess` is `std::bad_variant_access` out of
`std::get`; `AssertionFailed` is the `assert` of `_get`; `UndefinedBehaviour`
stands for an access outside a vector or through a pointer to no object. -/
inductive RuntimeException
  | UndefinedVariable (name : String)
  | NotCallable
  | TypeMismatch (actual : TypeTag)
  | IndexOutOfRange
  | BadVariantAccess
  | AssertionFailed
  | UndefinedBehaviour
  deriving DecidableEq

/-- The enumerators of `Operation` that `Machine::step` has a `case` for. -/
inductive Operation
  | Add
  | Sub
  | Call
  | Set
  | Get
  | PushConstInt
  | PushConstString
  | GetArray
  | SetArray
  deriving DecidableEq

/-! ## The machine -/

/-- The data members of `Machine` used by `Machine.cpp`, with `m_forcedEnd`
of `Machine.hpp`.  `m_memoryRoot` lists the nodes linked behind the root
sentinel (the sentinel itself is neither a String nor an Array and is left
out); `m_variables` is the name-keyed map of globals. -/
structure Machine where
  m_constInts : List Int
  m_constStrings : List String
  m_operations : List Nat
  m_programCounter : Nat
  m_operationStack : List MemoryValue
  m_variables : List (String × MemoryValue)
  m_memoryRoot : List MemoryNode
  m_forcedEnd : Bool
  deriving DecidableEq

/-- Outcome of a handler: the machine after it returned, or the exception
that escaped together with the machine as the handler left it. -/
abbrev Exec := Except (RuntimeException × Machine) Machine

instance : DecidableEq Exec := fun a b =>
  match a, b with
  | Except.ok x, Except.ok y =>
    if h : x = y then isTrue (by rw [h]) else isFalse (fun h1 => by cases h1; exact h rfl)
  | Except.error x, Except.error y =>
    if h : x = y then isTrue (by rw [h]) else isFalse (fun h1 => by cases h1; exact h rfl)
  | Except.ok _, Except.error _ => isFalse (fun h1 => by cases h1)
  | Except.error _, Except.ok _ => isFalse (fun h1 => by cases h1)

/-- What the machine is run against.  `Operations.hpp` is not among the
sources, so the numbering of `enum class Operation` is the parameter
`decode`: the cast `(Operation)byte`, with `none` for every byte that no
`case` of `step` names.  `natives f` is the behaviour of the host callable
`f` when it is invoked with a pointer to the machine. -/
structure Host where
  decode : Nat → Option Operation
  natives : Nat → Machine → Exec

/-- The read `v[v.size() - k]` with the unsigned subtraction of the source: `none`
when the index falls outside the vector. -/
def fromTop (v : List MemoryValue) (k : Nat) : Option MemoryValue :=
  if k ≤ v.length then v[v.length - k]? else none

/-- The call `m_operationStack.pop_back()`. -/
def Machine.pop_back (m : Machine) : Machine :=
  { m with m_operationStack := m.m_operationStack.dropLast }

/-- The call `m_operationStack.push_back(val)`. -/
def Machine.push_back (m : Machine) (val : MemoryValue) : Machine :=
  { m with m_operationStack := m.m_operationStack ++ [val] }

/-- The call `m_variables.count(name)`. -/
def count (vars : List (String × MemoryValue)) (name : String) : Nat :=
  match vars with
  | [] => 0
  | (k, _) :: rest => if k = name then 1 else count rest name

/-- The value read by `m_variables[name]` when `name` has an entry. -/
def lookup (vars : List (String × MemoryValue)) (name : String) : Option MemoryValue :=
  match vars with
  | [] => none
  | (k, v) :: rest => if k = name then some v else lookup rest name

/-- The assignment `m_variables[name] = val`: overwrite the entry of `name`, or insert one. -/
def assign (vars : List (String × MemoryValue)) (name : String) (val : MemoryValue) :
    List (String × MemoryValue) :=
  match vars with
  | [] => [(name, val)]
  | (k, v) :: rest => if k = name then (k, val) :: rest else (k, v) :: assign rest name val

/-- The `while (root != nullptr)` scan of `_pushConstString`: position of the
first `StringNode` whose text equals `str`, counting from `i`. -/
def findStringNode (str : String) : List MemoryNode → Nat → Option Nat
  | [], _ => none
  | MemoryNode.StringNode s :: rest, i =>
      if s = str then some i else findStringNode str rest (i + 1)
  | MemoryNode.ArrayNode _ :: rest, i => findStringNode str rest (i + 1)

/-- Modelled from the spec: `ArrayNode::getItem` lives in `Array.hpp`/`Array.cpp`, which
are not among the sources.  The index is a 32-bit signed integer and must lie
in `[0, length)`, otherwise the access fails with `IndexOutOfRange`. -/
def ArrayNode.getItem (data : List MemoryValue) (i : Int) : Except RuntimeException MemoryValue :=
  if 0 ≤ i ∧ i < data.length then
    match data[i.toNat]? with
    | some v => Except.ok v
    | none => Except.error RuntimeException.IndexOutOfRange
  else Except.error RuntimeException.IndexOutOfRange

/-- Modelled from the spec: `ArrayNode::setItem` lives in `Array.hpp`/`Array.cpp`, which
are not among the sources.  Arrays are fixed-size, an index outside
`[0, length)` fails with `IndexOutOfRange`, an index inside overwrites that
one element. -/
def ArrayNode.setItem (data : List MemoryValue) (i : Int) (item : MemoryValue) :
    Except RuntimeException (List MemoryValue) :=
  if 0 ≤ i ∧ i < data.length then Except.ok (data.set i.toNat item)
  else Except.error RuntimeException.IndexOutOfRange

/-! ## Opcode handlers -/

/-- Handler `Machine::_addInt`. -/
def _addInt (m : Machine) : Exec :=
  match fromTop m.m_operationStack 1, fromTop m.m_operationStack 2 with
  | some a, some b =>
    let m1 := m.pop_back.pop_back
    match a.value, b.value with
    | Value.int x, Value.int y => Except.ok (m1.push_back (MemoryValue.ofInt (wrapInt32 (x + y))))
    | _, _ => Except.error (RuntimeException.BadVariantAccess, m1)
  | _, _ => Except.error (RuntimeException.UndefinedBehaviour, m)

/-- Handler `Machine::_subInt`. -/
def _subInt (m : Machine) : Exec :=
  match fromTop m.m_operationStack 1, fromTop m.m_operationStack 2 with
  | some a, some b =>
    let m1 := m.pop_back.pop_back
    match b.value, a.value with
    | Value.int y, Value.int x => Except.ok (m1.push_back (MemoryValue.ofInt (wrapInt32 (y - x))))
    | _, _ => Except.error (RuntimeException.BadVariantAccess, m1)
  | _, _ => Except.error (RuntimeException.UndefinedBehaviour, m)

/-- Handler `Machine::_set`. -/
def _set (m : Machine) : Exec :=
  match fromTop m.m_operationStack 1, fromTop m.m_operationStack 2 with
  | some val, some name =>
    let m1 := m.pop_back.pop_back
    match name.value with
    | Value.ref p =>
      match m1.m_memoryRoot[p]? with
      | some (MemoryNode.StringNode str) =>
          Except.ok { m1 with m_variables := assign m1.m_variables str val }
      | some (MemoryNode.ArrayNode _) => Except.ok m1
      | none => Except.error (RuntimeException.UndefinedBehaviour, m1)
    | _ => Except.error (RuntimeException.BadVariantAccess, m1)
  | _, _ => Except.error (RuntimeException.UndefinedBehaviour, m)

/-- Handler `Machine::_get`. -/
def _get (m : Machine) : Exec :=
  match fromTop m.m_operationStack 1 with
  | some name =>
    let m1 := m.pop_back
    match name.value with
    | Value.ref p =>
      match m1.m_memoryRoot[p]? with
      | some (MemoryNode.StringNode str) =>
          if count m1.m_variables str < 1 then
            Except.error (RuntimeException.UndefinedVariable str, m1)
          else
            match lookup m1.m_variables str with
            | some v => Except.ok (m1.push_back v)
            | none => Except.error (RuntimeException.UndefinedBehaviour, m1)
      | some (MemoryNode.ArrayNode _) => Except.ok m1
      | none => Except.error (RuntimeException.UndefinedBehaviour, m1)
    | _ => Except.error (RuntimeException.AssertionFailed, m1)
  | none => Except.error (RuntimeException.UndefinedBehaviour, m)

/-- Handler `Machine::_call`. -/
def _call (h : Host) (m : Machine) : Exec :=
  match fromTop m.m_operationStack 1 with
  | some func =>
    let m1 := m.pop_back
    match func.value with
    | Value.native f => h.natives f m1
    | _ => Except.error (RuntimeException.NotCallable, m1)
  | none => Except.error (RuntimeException.UndefinedBehaviour, m)

/-- Handler `Machine::_pushConstInt`. -/
def _pushConstInt (m : Machine) : Exec :=
  match m.m_operations[m.m_programCounter + 1]? with
  | some idx =>
    match m.m_constInts[idx]? with
    | some c =>
      let m1 := m.push_back (MemoryValue.ofInt c)
      Except.ok { m1 with m_programCounter := m1.m_programCounter + 1 }
    | none => Except.error (RuntimeException.UndefinedBehaviour, m)
  | none => Except.error (RuntimeException.UndefinedBehaviour, m)

/-- Handler `Machine::_pushConstString`. -/
def _pushConstString (m : Machine) : Exec :=
  match m.m_operations[m.m_programCounter + 1]? with
  | some idx =>
    match m.m_constStrings[idx]? with
    | some str =>
      match findStringNode str m.m_memoryRoot 0 with
      | some node =>
        let m1 := { m with m_programCounter := m.m_programCounter + 1 }
        Except.ok (m1.push_back (MemoryValue.ofNode node))
      | none =>
        let node := m.m_memoryRoot.length
        let m1 := { m with m_memoryRoot := m.m_memoryRoot ++ [MemoryNode.StringNode str] }
        let m2 := { m1 with m_programCounter := m1.m_programCounter + 1 }
        Except.ok (m2.push_back (MemoryValue.ofNode node))
    | none => Except.error (RuntimeException.UndefinedBehaviour, m)
  | none => Except.error (RuntimeException.UndefinedBehaviour, m)

/-- Handler `Machine::_getArray`. -/
def _getArray (m : Machine) : Exec :=
  match fromTop m.m_operationStack 2, fromTop m.m_operationStack 1 with
  | some index, some array =>
    let m1 := m.pop_back.pop_back
    match array.value with
    | Value.ref p =>
      match m1.m_memoryRoot[p]? with
      | some (MemoryNode.ArrayNode data) =>
        match index.value with
        | Value.int i =>
          match ArrayNode.getItem data i with
          | Except.ok item => Except.ok (m1.push_back item)
          | Except.error e => Except.error (e, m1)
        | _ => Except.error (RuntimeException.BadVariantAccess, m1)
      | some (MemoryNode.StringNode _) => Except.ok m1
      | none => Except.error (RuntimeException.UndefinedBehaviour, m1)
    | _ => Except.error (RuntimeException.TypeMismatch array.type, m1)
  | _, _ => Except.error (RuntimeException.UndefinedBehaviour, m)

/-- Handler `Machine::_setArray`. -/
def _setArray (m : Machine) : Exec :=
  match fromTop m.m_operationStack 3, fromTop m.m_operationStack 2,
      fromTop m.m_operationStack 1 with
  | some index, some array, some value =>
    let m1 := m.pop_back.pop_back.pop_back
    match array.value with
    | Value.ref p =>
      match m1.m_memoryRoot[p]? with
      | some (MemoryNode.ArrayNode data) =>
        match index.value with
        | Value.int i =>
          match ArrayNode.setItem data i value with
          | Except.ok data1 =>
              Except.ok { m1 with m_memoryRoot := m1.m_memoryRoot.set p (MemoryNode.ArrayNode data1) }
          | Except.error e => Except.error (e, m1)
        | _ => Except.error (RuntimeException.BadVariantAccess, m1)
      | some (MemoryNode.StringNode _) => Except.ok m1
      | none => Except.error (RuntimeException.UndefinedBehaviour, m1)
    | _ => Except.error (RuntimeException.TypeMismatch array.type, m1)
  | _, _, _ => Except.error (RuntimeException.UndefinedBehaviour, m)

/-- The `switch` of `Machine::step`; `none` is the `default:` branch, which
only writes a diagnostic to `std::cerr`. -/
def dispatch (h : Host) (op : Option Operation) (m : Machine) : Exec :=
  match op with
  | some Operation.Add => _addInt m
  | some Operation.Sub => _subInt m
  | some Operation.Call => _call h m
  | some Operation.Set => _set m
  | some Operation.Get => _get m
  | some Operation.PushConstInt => _pushConstInt m
  | some Operation.PushConstString => _pushConstString m
  | some Operation.GetArray => _getArray m
  | some Operation.SetArray => _setArray m
  | none => Except.ok m

/-- One call of `Machine::step`: nothing happens once the program counter is past the
last byte; otherwise the byte under the counter is dispatched and, when the
handler returns, the counter is incremented. -/
def step (h : Host) (m : Machine) : Exec :=
  match m.m_operations[m.m_programCounter]? with
  | none => Except.ok m
  | some byte =>
    match dispatch h (h.decode byte) m with
    | Except.ok m1 => Except.ok { m1 with m_programCounter := m1.m_programCounter + 1 }
    | Except.error e => Except.error e

/-- The host loop `step(); step(); ...`: `n` calls of `Machine::step`, stopped
by the first exception. -/
def stepN (h : Host) : Nat → Machine → Exec
  | 0, m => Except.ok m
  | n + 1, m =>
    match step h m with
    | Except.ok m1 => stepN h n m1
    | Except.error e => Except.error e

/-! ## Host-facing members and the immediate decoder -/

/-- The host call `Machine::addFunction(func, name)`:
`m_variables[name] = MemoryValue{.type = Type::NativeFunction, .value = func}`. -/
def addFunction (m : Machine) (func : Nat) (name : String) : Machine :=
  { m with m_variables := assign m.m_variables name (MemoryValue.ofFunction func) }

/-- The `for` loop of `_parseOperationConstant<T>` with `k` iterations left,
`size = sizeof(T)` and `i = size - k` the loop variable:
`res |= (uint64_t)(m_operations[start + i]) << offset`, the shift taken in
64 bits.  `none` when a byte lies outside `m_operations`. -/
def parseOperationConstantLoop (operations : List Nat) (start size : Nat) :
    Nat → Nat → Option Nat
  | 0, res => some res
  | k + 1, res =>
    let i := size - (k + 1)
    let offset := (size - i - 1) * 8
    match operations[start + i]? with
    | some byte =>
      parseOperationConstantLoop operations start size k
        (res ||| ((byte <<< offset) % 2 ^ 64))
    | none => none

/-- The member template `Machine::_parseOperationConstant<T>(start)` of
`Machine.hpp` with `size = sizeof(T)`.  The result is the bit pattern of the
returned `T`: `reinterpret_cast<T *>(&res)` reads the first `sizeof(T)` bytes
of the 64-bit accumulator, which on a little-endian target are its low
`8 * sizeof(T)` bits. -/
def _parseOperationConstant (m : Machine) (size start : Nat) : Option Nat :=
  match parseOperationConstantLoop m.m_operations start size size 0 with
  | some res => some (res % 2 ^ (8 * size))
  | none => none

/-- The test `std::holds_alternative<int32_t>(v)`, the condition under which
`std::get<int32_t>(v)` returns instead of throwing. -/
def holdsInt32 : Value → Bool
  | Value.int _ => true
  | _ => false

/-- The exception `ParsingError`; `ParsingError.mk row column msg` is the
constructor `ParsingError(row, column, msg)`, which stores its arguments in
`m_row`, `m_column` and `m_message`. -/
structure ParsingError where
  m_row : Nat
  m_column : Nat
  m_message : String
  deriving DecidableEq

/-- The text `m_full` returned by `ParsingError::what()`:
`"Error at line " + to_string(m_row) + " row " + to_string(m_column) + ": " + m_message`. -/
def ParsingError.what (e : ParsingError) : String :=
  "Error at line " ++ toString e.m_row ++ " row " ++ toString e.m_column ++ ": " ++ e.m_message

/-- The tokens built by the tokenizer, each with the arguments of its
constructor call: `(row, column, payload)`. -/
inductive Token
  | KeywordToken (row column keyword : Nat)
  | IntToken (row column index : Nat)
  | IdToken (row column index : Nat)
  | OperatorToken (row column op : Nat)
  | SeparatorToken (row column separator : Nat)
  deriving DecidableEq

/-- The tables `Keywords`, `Operators` and `Separators` the tokenizer iterates
over (in iteration order, each entry with the payload of its token), and the
default of the parameter `stopAtEndOfTheLine` of `advanceRowIterator`; all
four are declared outside the sources. -/
structure Tables where
  Keywords : List (String × Nat)
  Operators : List (String × Nat)
  Separators : List (Char × Nat)
  stopAtEndOfTheLine : Bool

/-- The data members of `Parser`. -/
structure Parser where
  m_code : List String
  m_lineIt : Nat
  m_rowIt : Nat
  m_tokens : List Token
  m_ids : List String
  m_ints : List Int
  deriving DecidableEq

/-- The constructor `Parser(std::vector<std::string> const &code)`. -/
def Parser.ofLines (code : List String) : Parser where
  m_code := code
  m_lineIt := 0
  m_rowIt := 0
  m_tokens := []
  m_ids := []
  m_ints := []

/-- The characters of the line `*m_lineIt` (no characters once `m_lineIt` is
past the last line). -/
def Parser.line (p : Parser) : List Char :=
  (p.m_code.getD p.m_lineIt "").data

/-- The character `*(m_rowIt + offset)`; at the end of the line this is the
terminating NUL of the string. -/
def Parser.peek (p : Parser) (offset : Nat) : Char :=
  p.line.getD (p.m_rowIt + offset) (Char.ofNat 0)

/-- The comparison `(m_rowIt + offset) == getEndOfTheLine()`. -/
def Parser.atEndOfTheLine (p : Parser) (offset : Nat) : Bool :=
  decide (p.m_rowIt + offset = p.line.length)

/-- The member `Parser::getLineNumber`: `m_lineIt - m_code.begin()`. -/
def Parser.getLineNumber (p : Parser) : Nat := p.m_lineIt

/-- The member `Parser::getColumnNumber`: `m_rowIt - m_lineIt->begin()`. -/
def Parser.getColumnNumber (p : Parser) : Nat := p.m_rowIt

/-- The C function `isspace` in the "C" locale. -/
def isspace (c : Char) : Bool :=
  decide (c.toNat = 32) || (decide (9 ≤ c.toNat) && decide (c.toNat ≤ 13))

/-- The member `Parser::advanceRowIterator(offset, stopAtEndOfTheLine)`;
`fuel` bounds the nested calls, one per line that is left. -/
def advanceRowIteratorAux (stopAtEndOfTheLine : Bool) : Nat → Parser → Nat → Parser
  | 0, p, _ => p
  | fuel + 1, p, offset =>
    let currentOffset := min offset (p.line.length - p.m_rowIt)
    let p1 := { p with m_rowIt := p.m_rowIt + currentOffset }
    if p1.m_rowIt = p1.line.length then
      let p2 := { p1 with m_lineIt := p1.m_lineIt + 1 }
      if p2.m_lineIt = p2.m_code.length then p2
      else
        let p3 := { p2 with m_rowIt := 0 }
        if currentOffset < offset ∧ ¬ stopAtEndOfTheLine = true then
          advanceRowIteratorAux stopAtEndOfTheLine fuel p3 (offset - currentOffset)
        else p3
    else p1

/-- The call `advanceRowIterator(offset)` with the default second argument. -/
def advanceRowIterator (t : Tables) (p : Parser) (offset : Nat) : Parser :=
  advanceRowIteratorAux t.stopAtEndOfTheLine (p.m_code.length - p.m_lineIt + 1) p offset

/-- The loop of `Parser::skipWhitespace`:
`while (std::isspace(*m_rowIt) && m_rowIt != getEndOfTheLine()) advanceRowIterator(1)`;
`fuel` bounds the iterations. -/
def skipWhitespaceLoop (t : Tables) : Nat → Parser → Parser
  | 0, p => p
  | fuel + 1, p =>
    if isspace (p.peek 0) = true ∧ p.atEndOfTheLine 0 = false then
      skipWhitespaceLoop t fuel (advanceRowIterator t p 1)
    else p

/-- The number of characters and lines of the source: no loop of the
tokenizer runs more often. -/
def Parser.fuel (p : Parser) : Nat :=
  (p.m_code.map String.length).sum + p.m_code.length + 1

/-- The member `Parser::skipWhitespace`. -/
def skipWhitespace (t : Tables) (p : Parser) : Parser :=
  skipWhitespaceLoop t p.fuel p

/-- The loop of `Parser::tryKeyword` and `Parser::tryOperator` from index `i`
on: `false` at the first `i` with `(m_rowIt + i) == getEndOfTheLine()` or
`*(m_rowIt + i) != keyword[i]`. -/
def tryFrom (p : Parser) : Nat → List Char → Bool
  | _, [] => true
  | i, k :: rest =>
    if p.atEndOfTheLine i = true ∨ p.peek i ≠ k then false else tryFrom p (i + 1) rest

/-- The member `Parser::tryKeyword`. -/
def tryKeyword (p : Parser) (keyword : String) : Bool :=
  tryFrom p 0 keyword.data

/-- The member `Parser::tryOperator`; `strnlen(op.symbol, 2)` characters of
the symbol are compared. -/
def tryOperator (p : Parser) (symbol : String) : Bool :=
  tryFrom p 0 (symbol.data.take 2)

/-- The member `Parser::parseKeywords`, the loop over the table from the
given entry on. -/
def parseKeywordsFrom (t : Tables) (p : Parser) : List (String × Nat) → Option (Token × Parser)
  | [] => none
  | (keyword, kw) :: rest =>
    if tryKeyword p keyword = true then
      let row := p.getLineNumber
      let column := p.getColumnNumber
      some (Token.KeywordToken row column kw, advanceRowIterator t p keyword.length)
    else parseKeywordsFrom t p rest

/-- The member `Parser::parseKeywords`. -/
def parseKeywords (t : Tables) (p : Parser) : Option (Token × Parser) :=
  parseKeywordsFrom t p t.Keywords

/-- The member `Parser::parseOperators`, the loop over the table from the
given entry on. -/
def parseOperatorsFrom (t : Tables) (p : Parser) : List (String × Nat) → Option (Token × Parser)
  | [] => none
  | (symbol, op) :: rest =>
    if tryOperator p symbol = true then
      let row := p.getLineNumber
      let column := p.getColumnNumber
      let offset := (symbol.data.take 2).length
      some (Token.OperatorToken row column op, advanceRowIterator t p offset)
    else parseOperatorsFrom t p rest

/-- The member `Parser::parseOperators`. -/
def parseOperators (t : Tables) (p : Parser) : Option (Token × Parser) :=
  parseOperatorsFrom t p t.Operators

/-- The member `Parser::parseSeparators`, the loop over the table from the
given entry on. -/
def parseSeparatorsFrom (t : Tables) (p : Parser) : List (Char × Nat) → Option (Token × Parser)
  | [] => none
  | (symbol, separator) :: rest =>
    if p.peek 0 = symbol then
      let row := p.getLineNumber
      let column := p.getColumnNumber
      some (Token.SeparatorToken row column separator, advanceRowIterator t p 1)
    else parseSeparatorsFrom t p rest

/-- The member `Parser::parseSeparators`. -/
def parseSeparators (t : Tables) (p : Parser) : Option (Token × Parser) :=
  parseSeparatorsFrom t p t.Separators

/-- The scanning loops of `parseId` and `parseInt`: the characters from
`m_rowIt + offset` up to the end of the line or the first character that
fails `accept`; `fuel` bounds the iterations. -/
def scanWhile (accept : Char → Bool) (p : Parser) : Nat → Nat → List Char
  | 0, _ => []
  | fuel + 1, offset =>
    if p.atEndOfTheLine offset = false ∧ accept (p.peek offset) = true then
      p.peek offset :: scanWhile accept p fuel (offset + 1)
    else []

/-- The member `Parser::parseId`. -/
def parseId (t : Tables) (p : Parser) : Option (Token × Parser) :=
  if (p.peek 0).isAlpha = false ∧ p.peek 0 ≠ '_' then none
  else
    let id := String.mk (scanWhile (fun c => c.isAlphanum || c == '_') p p.fuel 0)
    let offset := id.length
    let found := p.m_ids.indexOf id
    let p1 := if found = p.m_ids.length then { p with m_ids := p.m_ids ++ [id] } else p
    let index := if found = p.m_ids.length then p1.m_ids.length - 1 else found
    let row := p1.getLineNumber
    let column := p1.getColumnNumber
    some (Token.IdToken row column index, advanceRowIterator t p1 offset)

/-- The three ways `std::stoi` ends. -/
inductive StoiResult
  | value (numVal : Int)
  | invalid_argument
  | out_of_range
  deriving DecidableEq

/-- The number denoted by a string of decimal digits. -/
def decimalValue (num : List Char) : Nat :=
  num.foldl (fun acc c => acc * 10 + (c.toNat - 48)) 0

/-- The library function `std::stoi` on the strings `parseInt` passes to it,
runs of decimal digits: the denoted number when it is at most `INT_MAX`,
`std::out_of_range` when it is larger, `std::invalid_argument` when there is
no digit to convert. -/
def stoi (num : List Char) : StoiResult :=
  match num with
  | [] => StoiResult.invalid_argument
  | c :: _ =>
    if c.isDigit = false then StoiResult.invalid_argument
    else if decimalValue (num.takeWhile Char.isDigit) > 2147483647 then StoiResult.out_of_range
    else StoiResult.value (decimalValue (num.takeWhile Char.isDigit))

/-- The message of the `ParsingError` thrown by `parseInt`. -/
def constantTooLarge : String :=
  "Constant number is too large, valid range is " ++ "-2147483648" ++ "< x < " ++ "2147483647"

/-- The member `Parser::parseInt`. -/
def parseInt (t : Tables) (p : Parser) : Except ParsingError (Option (Token × Parser)) :=
  if (p.peek 0).isDigit = false then Except.ok none
  else
    let num := scanWhile Char.isDigit p p.fuel 0
    let offset := num.length
    match stoi num with
    | StoiResult.value numVal =>
      let found := p.m_ints.indexOf numVal
      let p1 := if found = p.m_ints.length then { p with m_ints := p.m_ints ++ [numVal] } else p
      let index := if found = p.m_ints.length then p1.m_ints.length - 1 else found
      let row := p1.getLineNumber
      let column := p1.getColumnNumber
      Except.ok (some (Token.IntToken row column index, advanceRowIterator t p1 offset))
    | StoiResult.invalid_argument => Except.ok none
    | StoiResult.out_of_range =>
      Except.error (ParsingError.mk p.m_rowIt p.m_lineIt constantTooLarge)

/-- The `for` loop over `parsers` in `Parser::parse`: the first token that
one of `parseKeywords`, `parseInt`, `parseId`, `parseOperators`,
`parseSeparators` returns, in this order. -/
def firstToken (t : Tables) (p : Parser) : Except ParsingError (Option (Token × Parser)) :=
  match parseKeywords t p with
  | some r => Except.ok (some r)
  | none =>
    match parseInt t p with
    | Except.error e => Except.error e
    | Except.ok (some r) => Except.ok (some r)
    | Except.ok none =>
      match parseId t p with
      | some r => Except.ok (some r)
      | none =>
        match parseOperators t p with
        | some r => Except.ok (some r)
        | none => Except.ok (parseSeparators t p)

/-- The `while` loop of `Parser::parse`; `fuel` bounds the iterations and
`none` is returned when it runs out. -/
def parseLoop (t : Tables) : Nat → Parser → Option (Except ParsingError Parser)
  | 0, _ => none
  | fuel + 1, p =>
    if p.atEndOfTheLine 0 = false ∧ p.m_lineIt ≠ p.m_code.length then
      let p1 := skipWhitespace t p
      match firstToken t p1 with
      | Except.error e => some (Except.error e)
      | Except.ok (some (token, p2)) =>
          parseLoop t fuel { p2 with m_tokens := p2.m_tokens ++ [token] }
      | Except.ok none =>
          some (Except.error
            (ParsingError.mk p1.getLineNumber p1.getColumnNumber "Unknown character sequence"))
    else some (Except.ok p)

/-- The member `Parser::parse`. -/
def parse (t : Tables) (p : Parser) : Option (Except ParsingError Parser) :=
  parseLoop t p.fuel p

/-- A table set for evaluation: the keyword `if`, the operators `==`, `=`,
`+`, `-`, the separators `(`, `)`, `;`. -/
def demoTables : Tables where
  Keywords := [("if", 0)]
  Operators := [("==", 0), ("=", 1), ("+", 2), ("-", 3)]
  Separators := [('(', 0), (')', 1), (';', 2)]
  stopAtEndOfTheLine := true

/-! ## The stack interface of the host -/

/-- The host call `Machine::getStackTop`: a null pointer on an empty stack,
otherwise a pointer to the last element; the result here is the value
pointed to.  The call does not write to the machine. -/
def getStackTop (m : Machine) : Option MemoryValue :=
  if m.m_operationStack = [] then none
  else m.m_operationStack[m.m_operationStack.length - 1]?

/-- The host call `Machine::getStackTopAndPop`: a null pointer on an empty
stack (the machine untouched), otherwise a copy of the last element, which
is removed from the stack. -/
def getStackTopAndPop (m : Machine) : Option MemoryValue × Machine :=
  if m.m_operationStack = [] then (none, m)
  else (m.m_operationStack[m.m_operationStack.length - 1]?, m.pop_back)

/-- The host call `Machine::pushToStack`. -/
def pushToStack (m : Machine) (val : MemoryValue) : Machine := m.push_back val

/-- The loop `while (std::getline(stream, to, (char)10)) m_code.push_back(to)`
of the constructor `Parser(std::string const &)`: `line` holds the
characters extracted so far into `to` by the current `getline`, which
succeeds at a line feed and, when at least one character was extracted, at
the end of the text. -/
def getlines : List Char → List Char → List String
  | [], line => if line = [] then [] else [String.mk line]
  | c :: rest, line =>
    if c = Char.ofNat 10 then String.mk line :: getlines rest []
    else getlines rest (line ++ [c])

/-- The constructor `Parser(std::string const &code)`. -/
def Parser.ofString (code : String) : Parser where
  m_code := getlines code.data []
  m_lineIt := 0
  m_rowIt := 0
  m_tokens := []
  m_ids := []
  m_ints := []

/-- The three-line source `a`, empty line, `b`, the lines separated by line
feeds. -/
def demoSource : String :=
  String.mk ['a', Char.ofNat 10, Char.ofNat 10, 'b']

/-- The maximal run of letters, digits and underscores that starts at the
cursor: the longest prefix of the rest of the line made of such characters. -/
def Parser.idRun (p : Parser) : List Char :=
  (p.line.drop p.m_rowIt).takeWhile (fun c => c.isAlphanum || c == '_')

/-- The maximal run of decimal digits that starts at the cursor. -/
def Parser.digitRun (p : Parser) : List Char :=
  (p.line.drop p.m_rowIt).takeWhile Char.isDigit

/-- The parsers reached from `p0` by calls of `parseId`, with any steps in
between that leave the identifier table as it is (the other members of the
tokenizer do). -/
inductive IdCalls (t : Tables) (p0 : Parser) : Parser → Prop
  | start : IdCalls t p0 p0
  | call (p p1 : Parser) (token : Token) :
      IdCalls t p0 p → parseId t p = some (token, p1) → IdCalls t p0 p1
  | other (p p1 : Parser) : IdCalls t p0 p → p1.m_ids = p.m_ids → IdCalls t p0 p1

/-! ## The public members a host can call -/

/-- A numbering of the opcodes in the order of the `case` labels of `step`,
starting at 1; every other byte has no `case`. -/
def demoDecode : Nat → Option Operation
  | 1 => some Operation.Add
  | 2 => some Operation.Sub
  | 3 => some Operation.Call
  | 4 => some Operation.Set
  | 5 => some Operation.Get
  | 6 => some Operation.PushConstInt
  | 7 => some Operation.PushConstString
  | 8 => some Operation.GetArray
  | 9 => some Operation.SetArray
  | _ => none

/-- A host whose callable `0` pushes the integer 7 and whose other callables
return at once. -/
def demoHost : Host where
  decode := demoDecode
  natives := fun f m => if f = 0 then Except.ok (m.push_back (MemoryValue.ofInt 7)) else Except.ok m

/-- A machine with the given instruction bytes, operand stack and heap, two
integer constants `10, 20`, two string constants `"x", "y"`, no globals, and
the program counter at 0. -/
def demoMachine (ops : List Nat) (stack : List MemoryValue) (heap : List MemoryNode) : Machine where
  m_constInts := [10, 20]
  m_constStrings := ["x", "y"]
  m_operations := ops
  m_programCounter := 0
  m_operationStack := stack
  m_variables := []
  m_memoryRoot := heap
  m_forcedEnd := false

theorem fromTop_one_append (s : List MemoryValue) (a : MemoryValue) :
    fromTop (s ++ [a]) 1 = some a := by
  simp [fromTop]

theorem fromTop_one_append_two (s : List MemoryValue) (a b : MemoryValue) :
    fromTop (s ++ [a, b]) 1 = some b := by
  have h : s ++ [a, b] = (s ++ [a]) ++ [b] := by simp
  rw [h, fromTop_one_append]

theorem fromTop_two_append_two (s : List MemoryValue) (a b : MemoryValue) :
    fromTop (s ++ [a, b]) 2 = some a := by
  have hlen : (s ++ [a, b]).length - 2 = s.length := by simp
  have hle : 2 ≤ (s ++ [a, b]).length := by simp
  rw [fromTop, if_pos hle, hlen, List.getElem?_append_right (Nat.le_refl _)]
  simp

theorem fromTop_one_append_three (s : List MemoryValue) (a b c : MemoryValue) :
    fromTop (s ++ [a, b, c]) 1 = some c := by
  have h : s ++ [a, b, c] = (s ++ [a, b]) ++ [c] := by simp
  rw [h, fromTop_one_append]

theorem fromTop_two_append_three (s : List MemoryValue) (a b c : MemoryValue) :
    fromTop (s ++ [a, b, c]) 2 = some b := by
  have h : s ++ [a, b, c] = (s ++ [a]) ++ [b, c] := by simp
  rw [h, fromTop_two_append_two]

theorem fromTop_three_append_three (s : List MemoryValue) (a b c : MemoryValue) :
    fromTop (s ++ [a, b, c]) 3 = some a := by
  have hlen : (s ++ [a, b, c]).length - 3 = s.length := by simp
  have hle : 3 ≤ (s ++ [a, b, c]).length := by simp
  rw [fromTop, if_pos hle, hlen, List.getElem?_append_right (Nat.le_refl _)]
  simp

theorem dropLast_append_two (s : List MemoryValue) (a b : MemoryValue) :
    (s ++ [a, b]).dropLast.dropLast = s := by
  have h : s ++ [a, b] = (s ++ [a]) ++ [b] := by simp
  rw [h, List.dropLast_concat, List.dropLast_concat]

theorem dropLast_append_three (s : List MemoryValue) (a b c : MemoryValue) :
    (s ++ [a, b, c]).dropLast.dropLast.dropLast = s := by
  have h : s ++ [a, b, c] = (s ++ [a]) ++ [b, c] := by simp
  rw [h, dropLast_append_two, List.dropLast_concat]

theorem wrapInt32_of_isInt32 (x : Int) (h : isInt32 x) : wrapInt32 x = x := by
  unfold isInt32 at h
  unfold wrapInt32
  omega

theorem isInt32_wrapInt32 (x : Int) : isInt32 (wrapInt32 x) := by
  unfold isInt32 wrapInt32
  omega

theorem lookup_assign_same (vars : List (String × MemoryValue)) (name : String)
    (val : MemoryValue) : lookup (assign vars name val) name = some val := by
  induction vars with
  | nil => simp [assign, lookup]
  | cons kv rest ih =>
    obtain ⟨k, v⟩ := kv
    by_cases hk : k = name
    · simp [assign, lookup, hk]
    · simp [assign, lookup, hk, ih]

theorem lookup_assign_other (vars : List (String × MemoryValue)) (name other : String)
    (val : MemoryValue) (hne : other ≠ name) :
    lookup (assign vars name val) other = lookup vars other := by
  induction vars with
  | nil => simp [assign, lookup, Ne.symm hne]
  | cons kv rest ih =>
    obtain ⟨k, v⟩ := kv
    by_cases hk : k = name
    · subst hk
      simp [assign, lookup, Ne.symm hne]
    · by_cases hko : k = other
      · subst hko
        simp [assign, lookup, hk]
      · simp [assign, lookup, hk, hko, ih]

theorem count_eq_zero_iff (vars : List (String × MemoryValue)) (name : String) :
    count vars name = 0 ↔ lookup vars name = none := by
  induction vars with
  | nil => simp [count, lookup]
  | cons kv rest ih =>
    obtain ⟨k, v⟩ := kv
    by_cases hk : k = name
    · simp [count, lookup, hk]
    · simp [count, lookup, hk, ih]

theorem count_le_one (vars : List (String × MemoryValue)) (name : String) :
    count vars name ≤ 1 := by
  induction vars with
  | nil => simp [count]
  | cons kv rest ih =>
    obtain ⟨k, v⟩ := kv
    by_cases hk : k = name
    · simp [count, hk]
    · simp [count, hk, ih]

theorem findStringNode_get (str : String) (heap : List MemoryNode) (i p : Nat)
    (h : findStringNode str heap i = some p) :
    i ≤ p ∧ heap[p - i]? = some (MemoryNode.StringNode str) := by
  induction heap generalizing i with
  | nil => simp [findStringNode] at h
  | cons n rest ih =>
    cases n with
    | StringNode s =>
      by_cases hs : s = str
      · simp [findStringNode, hs] at h
        subst h
        simp [hs]
      · simp [findStringNode, hs] at h
        obtain ⟨hle, hget⟩ := ih (i + 1) h
        refine ⟨by omega, ?_⟩
        have hp : p - i = (p - (i + 1)) + 1 := by omega
        rw [hp, List.getElem?_cons_succ]
        exact hget
    | ArrayNode d =>
      simp [findStringNode] at h
      obtain ⟨hle, hget⟩ := ih (i + 1) h
      refine ⟨by omega, ?_⟩
      have hp : p - i = (p - (i + 1)) + 1 := by omega
      rw [hp, List.getElem?_cons_succ]
      exact hget

theorem findStringNode_append_new (str : String) (heap : List MemoryNode) (i : Nat)
    (h : findStringNode str heap i = none) :
    findStringNode str (heap ++ [MemoryNode.StringNode str]) i = some (i + heap.length) := by
  induction heap generalizing i with
  | nil => simp [findStringNode]
  | cons n rest ih =>
    cases n with
    | StringNode s =>
      by_cases hs : s = str
      · simp [findStringNode, hs] at h
      · simp [findStringNode, hs] at h
        simp [findStringNode, hs, ih (i + 1) h]
        omega
    | ArrayNode d =>
      simp [findStringNode] at h
      simp [findStringNode, ih (i + 1) h]
      omega

/-! ## Handlers on a stack of known shape -/

theorem subInt_eq (m : Machine) (s : List MemoryValue) (a b : Int)
    (hstack : m.m_operationStack = s ++ [MemoryValue.ofInt a, MemoryValue.ofInt b]) :
    _subInt m = Except.ok
      { m with m_operationStack := s ++ [MemoryValue.ofInt (wrapInt32 (a - b))] } := by
  simp [_subInt, hstack, fromTop_one_append_two, fromTop_two_append_two, Machine.pop_back,
    Machine.push_back, dropLast_append_two, MemoryValue.ofInt]

theorem addInt_eq (m : Machine) (s : List MemoryValue) (a b : Int)
    (hstack : m.m_operationStack = s ++ [MemoryValue.ofInt a, MemoryValue.ofInt b]) :
    _addInt m = Except.ok
      { m with m_operationStack := s ++ [MemoryValue.ofInt (wrapInt32 (a + b))] } := by
  simp [_addInt, hstack, fromTop_one_append_two, fromTop_two_append_two, Machine.pop_back,
    Machine.push_back, dropLast_append_two, MemoryValue.ofInt, Int.add_comm]

theorem step_of_dispatch_ok (h : Host) (m m1 : Machine) (byte : Nat)
    (hfetch : m.m_operations[m.m_programCounter]? = some byte)
    (hrun : dispatch h (h.decode byte) m = Except.ok m1) :
    step h m = Except.ok { m1 with m_programCounter := m1.m_programCounter + 1 } := by
  simp [step, hfetch, hrun]

theorem step_of_dispatch_error (h : Host) (m : Machine) (e : RuntimeException × Machine)
    (byte : Nat) (hfetch : m.m_operations[m.m_programCounter]? = some byte)
    (hrun : dispatch h (h.decode byte) m = Except.error e) :
    step h m = Except.error e := by
  simp [step, hfetch, hrun]

/-! ## Arithmetic opcodes -/

/-- C1: with `a` pushed first and `b` on top, `_subInt` and a `step` at a
`Sub` opcode replace the two operands by the single integer `a - b` in 32-bit
arithmetic (left minus right), leave the values below untouched, and the
result is the exact difference whenever that fits in an `int32_t`. -/
theorem sub_left_minus_right (h : Host) (m : Machine) (s : List MemoryValue) (a b : Int)
    (byte : Nat) (hfetch : m.m_operations[m.m_programCounter]? = some byte)
    (hop : h.decode byte = some Operation.Sub)
    (hstack : m.m_operationStack = s ++ [MemoryValue.ofInt a, MemoryValue.ofInt b]) :
    _subInt m = Except.ok
        { m with m_operationStack := s ++ [MemoryValue.ofInt (wrapInt32 (a - b))] }
    ∧ step h m = Except.ok
        { m with m_operationStack := s ++ [MemoryValue.ofInt (wrapInt32 (a - b))],
                 m_programCounter := m.m_programCounter + 1 }
    ∧ (isInt32 (a - b) → wrapInt32 (a - b) = a - b) := by
  refine ⟨subInt_eq m s a b hstack, ?_, wrapInt32_of_isInt32 (a - b)⟩
  have hrun : dispatch h (h.decode byte) m = Except.ok
      { m with m_operationStack := s ++ [MemoryValue.ofInt (wrapInt32 (a - b))] } := by
    rw [hop]
    exact subInt_eq m s a b hstack
  rw [step_of_dispatch_ok h m _ byte hfetch hrun]

/-- C1, evaluated: on the stack `[1, 5, 3]` the `Sub` opcode leaves `[1, 2]`,
that is `5 - 3` and not `3 - 5`. -/
theorem sub_left_minus_right_witness :
    step demoHost (demoMachine [2] [MemoryValue.ofInt 1, MemoryValue.ofInt 5, MemoryValue.ofInt 3] [])
      = Except.ok { demoMachine [2] [MemoryValue.ofInt 1, MemoryValue.ofInt 2] [] with
          m_programCounter := 1 }
    ∧ wrapInt32 (5 - 3) = 2 ∧ wrapInt32 (5 - 3) ≠ 3 - 5 := by
  have key := sub_left_minus_right demoHost
    (demoMachine [2] [MemoryValue.ofInt 1, MemoryValue.ofInt 5, MemoryValue.ofInt 3] [])
    [MemoryValue.ofInt 1] 5 3 2 (by decide) (by decide) (by decide)
  refine ⟨?_, by decide, by decide⟩
  rw [key.2.1]
  decide

/-- C2: with `a` pushed first and `b` on top, `_addInt` and a `step` at an
`Add` opcode pop exactly the two operands and push exactly one integer, the
32-bit sum of `a` and `b`, leaving the values below untouched; the result is
the exact sum whenever that fits in an `int32_t`. -/
theorem add_pops_two_pushes_sum (h : Host) (m : Machine) (s : List MemoryValue) (a b : Int)
    (byte : Nat) (hfetch : m.m_operations[m.m_programCounter]? = some byte)
    (hop : h.decode byte = some Operation.Add)
    (hstack : m.m_operationStack = s ++ [MemoryValue.ofInt a, MemoryValue.ofInt b]) :
    _addInt m = Except.ok
        { m with m_operationStack := s ++ [MemoryValue.ofInt (wrapInt32 (a + b))] }
    ∧ step h m = Except.ok
        { m with m_operationStack := s ++ [MemoryValue.ofInt (wrapInt32 (a + b))],
                 m_programCounter := m.m_programCounter + 1 }
    ∧ (isInt32 (a + b) → wrapInt32 (a + b) = a + b) := by
  refine ⟨addInt_eq m s a b hstack, ?_, wrapInt32_of_isInt32 (a + b)⟩
  have hrun : dispatch h (h.decode byte) m = Except.ok
      { m with m_operationStack := s ++ [MemoryValue.ofInt (wrapInt32 (a + b))] } := by
    rw [hop]
    exact addInt_eq m s a b hstack
  rw [step_of_dispatch_ok h m _ byte hfetch hrun]

/-- C2, evaluated: on the stack `[9, 5, 3]` the `Add` opcode leaves `[9, 8]`. -/
theorem add_pops_two_pushes_sum_witness :
    step demoHost (demoMachine [1] [MemoryValue.ofInt 9, MemoryValue.ofInt 5, MemoryValue.ofInt 3] [])
      = Except.ok { demoMachine [1] [MemoryValue.ofInt 9, MemoryValue.ofInt 8] [] with
          m_programCounter := 1 }
    ∧ wrapInt32 (5 + 3) = 8 := by
  have key := add_pops_two_pushes_sum demoHost
    (demoMachine [1] [MemoryValue.ofInt 9, MemoryValue.ofInt 5, MemoryValue.ofInt 3] [])
    [MemoryValue.ofInt 9] 5 3 1 (by decide) (by decide) (by decide)
  refine ⟨?_, by decide⟩
  rw [key.2.1]
  decide

/-! ## Globals -/

theorem set_eq (m : Machine) (s : List MemoryValue) (n : String) (name v : MemoryValue)
    (p : Nat) (hname : name.value = Value.ref p)
    (hp : m.m_memoryRoot[p]? = some (MemoryNode.StringNode n))
    (hstack : m.m_operationStack = s ++ [name, v]) :
    _set m = Except.ok
      { m with m_operationStack := s, m_variables := assign m.m_variables n v } := by
  simp [_set, hstack, fromTop_one_append_two, fromTop_two_append_two, Machine.pop_back,
    dropLast_append_two, hname, hp]

theorem get_bound (m : Machine) (s : List MemoryValue) (n : String) (name v : MemoryValue)
    (p : Nat) (hname : name.value = Value.ref p)
    (hp : m.m_memoryRoot[p]? = some (MemoryNode.StringNode n))
    (hstack : m.m_operationStack = s ++ [name])
    (hv : lookup m.m_variables n = some v) :
    _get m = Except.ok { m with m_operationStack := s ++ [v] } := by
  have hc : ¬ count m.m_variables n = 0 := by
    rw [count_eq_zero_iff, hv]
    simp
  simp [_get, hstack, fromTop_one_append, Machine.pop_back, Machine.push_back, hname, hp, hv, hc]

theorem get_unbound (m : Machine) (s : List MemoryValue) (n : String) (name : MemoryValue)
    (p : Nat) (hname : name.value = Value.ref p)
    (hp : m.m_memoryRoot[p]? = some (MemoryNode.StringNode n))
    (hstack : m.m_operationStack = s ++ [name])
    (hv : lookup m.m_variables n = none) :
    _get m = Except.error
      (RuntimeException.UndefinedVariable n, { m with m_operationStack := s }) := by
  have hc : count m.m_variables n = 0 := (count_eq_zero_iff _ _).mpr hv
  simp [_get, hstack, fromTop_one_append, Machine.pop_back, hname, hp, hc]

/-- C3: `Set` on `s ++ [String n, v]` returns with the stack `s` and the
global `n` bound to `v`; a `Get` that follows on `s ++ [String n]` (the name
given by any String object whose text is `n`) returns with the stack
`s ++ [v]`, the globals as `Set` left them. -/
theorem set_get_round_trip (m : Machine) (s : List MemoryValue) (n : String)
    (name name2 v : MemoryValue) (p q : Nat)
    (hname : name.value = Value.ref p)
    (hp : m.m_memoryRoot[p]? = some (MemoryNode.StringNode n))
    (hname2 : name2.value = Value.ref q)
    (hq : m.m_memoryRoot[q]? = some (MemoryNode.StringNode n))
    (hstack : m.m_operationStack = s ++ [name, v]) :
    _set m = Except.ok
        { m with m_operationStack := s, m_variables := assign m.m_variables n v }
    ∧ _get { m with m_operationStack := s ++ [name2],
                    m_variables := assign m.m_variables n v }
      = Except.ok { m with m_operationStack := s ++ [v],
                           m_variables := assign m.m_variables n v } := by
  refine ⟨set_eq m s n name v p hname hp hstack, ?_⟩
  exact get_bound _ s n name2 v q hname2 hq rfl (lookup_assign_same _ _ _)

/-- C3, evaluated: the round trip on a heap holding the String `"x"`, and the
program `PushConstString 0, PushConstInt 1, Set, PushConstString 0, Get`,
which ends with the integer constant number 1 (the value 20) on top. -/
theorem set_get_round_trip_witness :
    _get { demoMachine [] [MemoryValue.ofNode 0, MemoryValue.ofInt 5] [MemoryNode.StringNode "x"] with
            m_operationStack := [] ++ [MemoryValue.ofNode 0],
            m_variables := assign [] "x" (MemoryValue.ofInt 5) }
      = Except.ok
          { demoMachine [] [MemoryValue.ofNode 0, MemoryValue.ofInt 5] [MemoryNode.StringNode "x"] with
            m_operationStack := [] ++ [MemoryValue.ofInt 5],
            m_variables := assign [] "x" (MemoryValue.ofInt 5) }
    ∧ stepN demoHost 5 (demoMachine [7, 0, 6, 1, 4, 7, 0, 5] [] [])
      = Except.ok
          { demoMachine [7, 0, 6, 1, 4, 7, 0, 5] [MemoryValue.ofInt 20] [MemoryNode.StringNode "x"] with
            m_programCounter := 8,
            m_variables := [("x", MemoryValue.ofInt 20)] } :=
  ⟨(set_get_round_trip
      (demoMachine [] [MemoryValue.ofNode 0, MemoryValue.ofInt 5] [MemoryNode.StringNode "x"])
      [] "x" (MemoryValue.ofNode 0) (MemoryValue.ofNode 0) (MemoryValue.ofInt 5) 0 0
      rfl rfl rfl rfl rfl).2, by decide⟩

/-- C4: for a `Get` whose popped operand is a String object with text `n`: the
handler raises `UndefinedVariable` if and only if `n` has no binding; when it
raises, the machine is left with the operand popped and the globals exactly
as they were (no binding for `n` appears); when `n` is bound to `v` the
handler returns with `v` pushed in place of the name. -/
theorem get_undefined_iff_unbound (m : Machine) (s : List MemoryValue) (n : String)
    (name : MemoryValue) (p : Nat) (hname : name.value = Value.ref p)
    (hp : m.m_memoryRoot[p]? = some (MemoryNode.StringNode n))
    (hstack : m.m_operationStack = s ++ [name]) :
    ((∃ m1, _get m = Except.error (RuntimeException.UndefinedVariable n, m1))
        ↔ lookup m.m_variables n = none)
    ∧ ((∃ e, _get m = Except.error e) ↔ lookup m.m_variables n = none)
    ∧ (lookup m.m_variables n = none →
        _get m = Except.error
          (RuntimeException.UndefinedVariable n, { m with m_operationStack := s })
        ∧ lookup ({ m with m_operationStack := s } : Machine).m_variables n = none
        ∧ ({ m with m_operationStack := s } : Machine).m_variables = m.m_variables)
    ∧ (∀ v, lookup m.m_variables n = some v →
        _get m = Except.ok { m with m_operationStack := s ++ [v] }) := by
  have hun := get_unbound m s n name p hname hp hstack
  have hbd := fun v => get_bound m s n name v p hname hp hstack
  refine ⟨⟨?_, fun hv => ⟨_, hun hv⟩⟩, ⟨?_, fun hv => ⟨_, hun hv⟩⟩, ?_, hbd⟩
  · rintro ⟨m1, hm1⟩
    cases hv : lookup m.m_variables n with
    | none => rfl
    | some v => rw [hbd v hv] at hm1; cases hm1
  · rintro ⟨e, he⟩
    cases hv : lookup m.m_variables n with
    | none => rfl
    | some v => rw [hbd v hv] at he; cases he
  · intro hv
    exact ⟨hun hv, hv, rfl⟩

/-- C4, evaluated: with no globals, `Get` of `"x"` raises `UndefinedVariable "x"`
and leaves the globals empty. -/
theorem get_undefined_iff_unbound_witness :
    _get (demoMachine [] [MemoryValue.ofInt 4, MemoryValue.ofNode 0] [MemoryNode.StringNode "x"])
      = Except.error (RuntimeException.UndefinedVariable "x",
          demoMachine [] [MemoryValue.ofInt 4] [MemoryNode.StringNode "x"]) :=
  ((get_undefined_iff_unbound
      (demoMachine [] [MemoryValue.ofInt 4, MemoryValue.ofNode 0] [MemoryNode.StringNode "x"])
      [MemoryValue.ofInt 4] "x" (MemoryValue.ofNode 0) 0 rfl rfl rfl).2.2.1 rfl).1

/-! ## Arrays -/

theorem getItem_in_range (data : List MemoryValue) (i : Int)
    (hi : 0 ≤ i ∧ i < data.length) :
    ∃ v, data[i.toNat]? = some v ∧ ArrayNode.getItem data i = Except.ok v := by
  have hlt : i.toNat < data.length := by omega
  refine ⟨data[i.toNat], List.getElem?_eq_getElem hlt, ?_⟩
  simp [ArrayNode.getItem, hi, List.getElem?_eq_getElem hlt]

theorem getItem_out_of_range (data : List MemoryValue) (i : Int)
    (hi : i < 0 ∨ (data.length : Int) ≤ i) :
    ArrayNode.getItem data i = Except.error RuntimeException.IndexOutOfRange := by
  have hn : ¬ (0 ≤ i ∧ i < data.length) := by omega
  simp [ArrayNode.getItem, hn]

theorem setItem_out_of_range (data : List MemoryValue) (i : Int) (v : MemoryValue)
    (hi : i < 0 ∨ (data.length : Int) ≤ i) :
    ArrayNode.setItem data i v = Except.error RuntimeException.IndexOutOfRange := by
  have hn : ¬ (0 ≤ i ∧ i < data.length) := by omega
  simp [ArrayNode.setItem, hn]

theorem getArray_array (m : Machine) (s : List MemoryValue) (data : List MemoryValue)
    (i : Int) (index array : MemoryValue) (p : Nat)
    (hindex : index.value = Value.int i) (harray : array.value = Value.ref p)
    (hp : m.m_memoryRoot[p]? = some (MemoryNode.ArrayNode data))
    (hstack : m.m_operationStack = s ++ [index, array]) :
    _getArray m =
      match ArrayNode.getItem data i with
      | Except.ok item => Except.ok { m with m_operationStack := s ++ [item] }
      | Except.error e => Except.error (e, { m with m_operationStack := s }) := by
  simp only [_getArray, hstack, fromTop_one_append_two, fromTop_two_append_two,
    Machine.pop_back, Machine.push_back, dropLast_append_two, hindex, harray, hp]

theorem setArray_array (m : Machine) (s : List MemoryValue) (data : List MemoryValue)
    (i : Int) (index array v : MemoryValue) (p : Nat)
    (hindex : index.value = Value.int i) (harray : array.value = Value.ref p)
    (hp : m.m_memoryRoot[p]? = some (MemoryNode.ArrayNode data))
    (hstack : m.m_operationStack = s ++ [index, array, v]) :
    _setArray m =
      match ArrayNode.setItem data i v with
      | Except.ok data1 => Except.ok
          { m with m_operationStack := s,
                   m_memoryRoot := m.m_memoryRoot.set p (MemoryNode.ArrayNode data1) }
      | Except.error e => Except.error (e, { m with m_operationStack := s }) := by
  simp only [_setArray, hstack, fromTop_one_append_three, fromTop_two_append_three,
    fromTop_three_append_three, Machine.pop_back, dropLast_append_three, hindex, harray, hp]

/-- C5: for an Array object `A` (at heap position `p`, elements `data`) and an
index `0 ≤ i < length`: `SetArray` on `s ++ [i, A, v]` returns with the stack
`s` and element `i` of `A` overwritten by `v`; `GetArray` on `s ++ [i, A]`
then pushes `v`; every other element of `A`, the length of `A` and every
other heap object are as before. -/
theorem setArray_getArray_round_trip (m : Machine) (s data : List MemoryValue) (i : Int)
    (index array v : MemoryValue) (p : Nat)
    (hindex : index.value = Value.int i) (harray : array.value = Value.ref p)
    (hp : m.m_memoryRoot[p]? = some (MemoryNode.ArrayNode data))
    (hi : 0 ≤ i ∧ i < data.length)
    (hstack : m.m_operationStack = s ++ [index, array, v]) :
    _setArray m = Except.ok
        { m with m_operationStack := s,
                 m_memoryRoot := m.m_memoryRoot.set p (MemoryNode.ArrayNode (data.set i.toNat v)) }
    ∧ _getArray
        { m with m_operationStack := s ++ [index, array],
                 m_memoryRoot := m.m_memoryRoot.set p (MemoryNode.ArrayNode (data.set i.toNat v)) }
      = Except.ok
        { m with m_operationStack := s ++ [v],
                 m_memoryRoot := m.m_memoryRoot.set p (MemoryNode.ArrayNode (data.set i.toNat v)) }
    ∧ (∀ j : Nat, j ≠ i.toNat → (data.set i.toNat v)[j]? = data[j]?)
    ∧ (data.set i.toNat v).length = data.length
    ∧ (∀ q : Nat, q ≠ p →
        (m.m_memoryRoot.set p (MemoryNode.ArrayNode (data.set i.toNat v)))[q]? = m.m_memoryRoot[q]?) := by
  have hlt : i.toNat < data.length := by omega
  have hplt : p < m.m_memoryRoot.length := by
    rcases Nat.lt_or_ge p m.m_memoryRoot.length with h | h
    · exact h
    · rw [List.getElem?_eq_none h] at hp
      cases hp
  refine ⟨?_, ?_, ?_, by simp, ?_⟩
  · rw [setArray_array m s data i index array v p hindex harray hp hstack]
    simp [ArrayNode.setItem, hi]
  · have hp2 : (m.m_memoryRoot.set p (MemoryNode.ArrayNode (data.set i.toNat v)))[p]?
        = some (MemoryNode.ArrayNode (data.set i.toNat v)) := by
      simp [List.getElem?_set, hplt]
    rw [getArray_array _ s (data.set i.toNat v) i index array p hindex harray hp2 rfl]
    have hget : (data.set i.toNat v)[i.toNat]? = some v := by
      simp [List.getElem?_set, hlt]
    simp [ArrayNode.getItem, hi, hget]
  · intro j hj
    simp [List.getElem?_set, Ne.symm hj]
  · intro q hq
    simp [List.getElem?_set, Ne.symm hq]

/-- C5, evaluated: an array of size 3, index 1 set to 5, then index 1 read:
the read pushes 5. -/
theorem setArray_getArray_round_trip_witness :
    _getArray
      { demoMachine [] [MemoryValue.ofInt 1, MemoryValue.ofNode 0, MemoryValue.ofInt 5]
          [MemoryNode.ArrayNode [⟨TypeTag.Null, Value.null⟩, ⟨TypeTag.Null, Value.null⟩,
            ⟨TypeTag.Null, Value.null⟩]] with
        m_operationStack := [] ++ [MemoryValue.ofInt 1, MemoryValue.ofNode 0],
        m_memoryRoot := [MemoryNode.ArrayNode [⟨TypeTag.Null, Value.null⟩, MemoryValue.ofInt 5,
            ⟨TypeTag.Null, Value.null⟩]] }
    = Except.ok
      { demoMachine [] [MemoryValue.ofInt 1, MemoryValue.ofNode 0, MemoryValue.ofInt 5]
          [MemoryNode.ArrayNode [⟨TypeTag.Null, Value.null⟩, ⟨TypeTag.Null, Value.null⟩,
            ⟨TypeTag.Null, Value.null⟩]] with
        m_operationStack := [] ++ [MemoryValue.ofInt 5],
        m_memoryRoot := [MemoryNode.ArrayNode [⟨TypeTag.Null, Value.null⟩, MemoryValue.ofInt 5,
            ⟨TypeTag.Null, Value.null⟩]] } :=
  (setArray_getArray_round_trip
    (demoMachine [] [MemoryValue.ofInt 1, MemoryValue.ofNode 0, MemoryValue.ofInt 5]
      [MemoryNode.ArrayNode [⟨TypeTag.Null, Value.null⟩, ⟨TypeTag.Null, Value.null⟩,
        ⟨TypeTag.Null, Value.null⟩]])
    [] [⟨TypeTag.Null, Value.null⟩, ⟨TypeTag.Null, Value.null⟩, ⟨TypeTag.Null, Value.null⟩]
    1 (MemoryValue.ofInt 1) (MemoryValue.ofNode 0) (MemoryValue.ofInt 5) 0
    rfl rfl rfl (by decide) rfl).2.1

/-- C6: for an Array object of length `n` and an index `i < 0` or `i ≥ n`,
`GetArray` and `SetArray` raise `IndexOutOfRange`; the machine is left with
the operands popped, nothing pushed and the heap (so every element of the
array) untouched. -/
theorem array_index_out_of_range (m : Machine) (s data : List MemoryValue) (i : Int)
    (index array v : MemoryValue) (p : Nat)
    (hindex : index.value = Value.int i) (harray : array.value = Value.ref p)
    (hp : m.m_memoryRoot[p]? = some (MemoryNode.ArrayNode data))
    (hi : i < 0 ∨ (data.length : Int) ≤ i) :
    (m.m_operationStack = s ++ [index, array] →
        _getArray m = Except.error
          (RuntimeException.IndexOutOfRange, { m with m_operationStack := s }))
    ∧ (m.m_operationStack = s ++ [index, array, v] →
        _setArray m = Except.error
          (RuntimeException.IndexOutOfRange, { m with m_operationStack := s })) := by
  constructor
  · intro hstack
    rw [getArray_array m s data i index array p hindex harray hp hstack,
      getItem_out_of_range data i hi]
  · intro hstack
    rw [setArray_array m s data i index array v p hindex harray hp hstack,
      setItem_out_of_range data i v hi]

/-- C6, evaluated: reading index 3 of an array of size 3 raises
`IndexOutOfRange`. -/
theorem array_index_out_of_range_witness :
    _getArray (demoMachine [] [MemoryValue.ofInt 3, MemoryValue.ofNode 0]
        [MemoryNode.ArrayNode [MemoryValue.ofInt 0, MemoryValue.ofInt 0, MemoryValue.ofInt 0]])
      = Except.error (RuntimeException.IndexOutOfRange,
          demoMachine [] []
            [MemoryNode.ArrayNode [MemoryValue.ofInt 0, MemoryValue.ofInt 0, MemoryValue.ofInt 0]]) :=
  (array_index_out_of_range
    (demoMachine [] [MemoryValue.ofInt 3, MemoryValue.ofNode 0]
      [MemoryNode.ArrayNode [MemoryValue.ofInt 0, MemoryValue.ofInt 0, MemoryValue.ofInt 0]])
    [] [MemoryValue.ofInt 0, MemoryValue.ofInt 0, MemoryValue.ofInt 0] 3
    (MemoryValue.ofInt 3) (MemoryValue.ofNode 0) (MemoryValue.ofInt 0) 0
    rfl rfl rfl (by decide)).1 rfl

theorem getArray_not_ref (m : Machine) (s : List MemoryValue) (index array : MemoryValue)
    (hstack : m.m_operationStack = s ++ [index, array])
    (harray : holdsMemoryNode array.value = false) :
    _getArray m = Except.error
      (RuntimeException.TypeMismatch array.type, { m with m_operationStack := s }) := by
  obtain ⟨t, val⟩ := array
  cases val <;>
    simp_all [_getArray, fromTop_one_append_two, fromTop_two_append_two, Machine.pop_back,
      dropLast_append_two, holdsMemoryNode]

theorem setArray_not_ref (m : Machine) (s : List MemoryValue) (index array v : MemoryValue)
    (hstack : m.m_operationStack = s ++ [index, array, v])
    (harray : holdsMemoryNode array.value = false) :
    _setArray m = Except.error
      (RuntimeException.TypeMismatch array.type, { m with m_operationStack := s }) := by
  obtain ⟨t, val⟩ := array
  cases val <;>
    simp_all [_setArray, fromTop_one_append_three, fromTop_two_append_three,
      fromTop_three_append_three, Machine.pop_back, dropLast_append_three, holdsMemoryNode]

theorem getArray_string (m : Machine) (s : List MemoryValue) (index array : MemoryValue)
    (p : Nat) (str : String)
    (hstack : m.m_operationStack = s ++ [index, array])
    (harray : array.value = Value.ref p)
    (hp : m.m_memoryRoot[p]? = some (MemoryNode.StringNode str)) :
    _getArray m = Except.ok { m with m_operationStack := s } := by
  simp [_getArray, hstack, fromTop_one_append_two, fromTop_two_append_two, Machine.pop_back,
    dropLast_append_two, harray, hp]

theorem setArray_string (m : Machine) (s : List MemoryValue) (index array v : MemoryValue)
    (p : Nat) (str : String)
    (hstack : m.m_operationStack = s ++ [index, array, v])
    (harray : array.value = Value.ref p)
    (hp : m.m_memoryRoot[p]? = some (MemoryNode.StringNode str)) :
    _setArray m = Except.ok { m with m_operationStack := s } := by
  simp [_setArray, hstack, fromTop_one_append_three, fromTop_two_append_three,
    fromTop_three_append_three, Machine.pop_back, dropLast_append_three, harray, hp]

theorem getItem_error (data : List MemoryValue) (i : Int) (e : RuntimeException)
    (h : ArrayNode.getItem data i = Except.error e) : e = RuntimeException.IndexOutOfRange := by
  unfold ArrayNode.getItem at h
  split at h
  · split at h
    · cases h
    · cases h; rfl
  · cases h; rfl

theorem setItem_error (data : List MemoryValue) (i : Int) (v : MemoryValue)
    (e : RuntimeException) (h : ArrayNode.setItem data i v = Except.error e) :
    e = RuntimeException.IndexOutOfRange := by
  unfold ArrayNode.setItem at h
  split at h
  · cases h
  · cases h; rfl

theorem getArray_ref_no_mismatch (m : Machine) (s : List MemoryValue)
    (index array : MemoryValue) (p : Nat)
    (hstack : m.m_operationStack = s ++ [index, array])
    (harray : array.value = Value.ref p) (t : TypeTag) (m1 : Machine) :
    _getArray m ≠ Except.error (RuntimeException.TypeMismatch t, m1) := by
  simp only [_getArray, hstack, fromTop_one_append_two, fromTop_two_append_two, harray]
  intro hc
  split at hc
  · split at hc
    · split at hc
      · cases hc
      · rename_i e hget
        cases hc
        cases getItem_error _ _ _ hget
    · cases hc
  · cases hc
  · cases hc

theorem setArray_ref_no_mismatch (m : Machine) (s : List MemoryValue)
    (index array v : MemoryValue) (p : Nat)
    (hstack : m.m_operationStack = s ++ [index, array, v])
    (harray : array.value = Value.ref p) (t : TypeTag) (m1 : Machine) :
    _setArray m ≠ Except.error (RuntimeException.TypeMismatch t, m1) := by
  simp only [_setArray, hstack, fromTop_one_append_three, fromTop_two_append_three,
    fromTop_three_append_three, harray]
  intro hc
  split at hc
  · split at hc
    · split at hc
      · cases hc
      · rename_i e hset
        cases hc
        cases setItem_error _ _ _ _ hset
    · cases hc
  · cases hc
  · cases hc

/-- C7, as stated, fails: with a heap reference to a String object as the
array operand, `GetArray` and `SetArray` raise nothing; they return with the
operands popped. -/
theorem array_operand_string_no_error :
    _getArray (demoMachine [] [MemoryValue.ofInt 0, MemoryValue.ofNode 0]
        [MemoryNode.StringNode "x"])
      = Except.ok (demoMachine [] [] [MemoryNode.StringNode "x"])
    ∧ _setArray (demoMachine [] [MemoryValue.ofInt 0, MemoryValue.ofNode 0, MemoryValue.ofInt 5]
        [MemoryNode.StringNode "x"])
      = Except.ok (demoMachine [] [] [MemoryNode.StringNode "x"]) := by
  decide

/-- C7, amended: `GetArray` and `SetArray` raise `TypeMismatch` exactly when
the array operand does not hold a heap reference, the error naming the
operand's tag and the operands staying popped; the test is on the value's
alternative alone, and for a heap reference to a String object both handlers
return without an error, with the operands popped and nothing pushed or
written. -/
theorem array_operand_type_mismatch (m : Machine) (s : List MemoryValue)
    (index array v : MemoryValue) :
    (m.m_operationStack = s ++ [index, array] →
        ((∃ t m1, _getArray m = Except.error (RuntimeException.TypeMismatch t, m1))
            ↔ holdsMemoryNode array.value = false)
        ∧ (holdsMemoryNode array.value = false →
            _getArray m = Except.error
              (RuntimeException.TypeMismatch array.type, { m with m_operationStack := s }))
        ∧ (∀ p str, array.value = Value.ref p →
            m.m_memoryRoot[p]? = some (MemoryNode.StringNode str) →
            _getArray m = Except.ok { m with m_operationStack := s }))
    ∧ (m.m_operationStack = s ++ [index, array, v] →
        ((∃ t m1, _setArray m = Except.error (RuntimeException.TypeMismatch t, m1))
            ↔ holdsMemoryNode array.value = false)
        ∧ (holdsMemoryNode array.value = false →
            _setArray m = Except.error
              (RuntimeException.TypeMismatch array.type, { m with m_operationStack := s }))
        ∧ (∀ p str, array.value = Value.ref p →
            m.m_memoryRoot[p]? = some (MemoryNode.StringNode str) →
            _setArray m = Except.ok { m with m_operationStack := s })) := by
  constructor
  · intro hstack
    refine ⟨⟨?_, fun hn => ⟨_, _, getArray_not_ref m s index array hstack hn⟩⟩,
      getArray_not_ref m s index array hstack,
      fun p str ha hp => getArray_string m s index array p str hstack ha hp⟩
    rintro ⟨t, m1, hm1⟩
    cases hval : array.value with
    | ref p => exact absurd hm1 (getArray_ref_no_mismatch m s index array p hstack hval t m1)
    | _ => rfl
  · intro hstack
    refine ⟨⟨?_, fun hn => ⟨_, _, setArray_not_ref m s index array v hstack hn⟩⟩,
      setArray_not_ref m s index array v hstack,
      fun p str ha hp => setArray_string m s index array v p str hstack ha hp⟩
    rintro ⟨t, m1, hm1⟩
    cases hval : array.value with
    | ref p => exact absurd hm1 (setArray_ref_no_mismatch m s index array v p hstack hval t m1)
    | _ => rfl

/-- C7 amended, evaluated: an `Int` as the array operand of `GetArray` raises
`TypeMismatch` naming the tag `Int`. -/
theorem array_operand_type_mismatch_witness :
    _getArray (demoMachine [] [MemoryValue.ofInt 0, MemoryValue.ofInt 9] [])
      = Except.error (RuntimeException.TypeMismatch TypeTag.Int, demoMachine [] [] []) :=
  ((array_operand_type_mismatch
      (demoMachine [] [MemoryValue.ofInt 0, MemoryValue.ofInt 9] [])
      [] (MemoryValue.ofInt 0) (MemoryValue.ofInt 9) (MemoryValue.ofInt 0)).1 rfl).2.1 rfl

/-! ## String constants -/

theorem pushConstString_found (m : Machine) (i p : Nat) (str : String)
    (hi : m.m_operations[m.m_programCounter + 1]? = some i)
    (hstr : m.m_constStrings[i]? = some str)
    (hfind : findStringNode str m.m_memoryRoot 0 = some p) :
    _pushConstString m = Except.ok
      { m with m_programCounter := m.m_programCounter + 1,
               m_operationStack := m.m_operationStack ++ [MemoryValue.ofNode p] } := by
  simp [_pushConstString, hi, hstr, hfind, Machine.push_back]

theorem pushConstString_fresh (m : Machine) (i : Nat) (str : String)
    (hi : m.m_operations[m.m_programCounter + 1]? = some i)
    (hstr : m.m_constStrings[i]? = some str)
    (hfind : findStringNode str m.m_memoryRoot 0 = none) :
    _pushConstString m = Except.ok
      { m with m_programCounter := m.m_programCounter + 1,
               m_operationStack := m.m_operationStack ++ [MemoryValue.ofNode m.m_memoryRoot.length],
               m_memoryRoot := m.m_memoryRoot ++ [MemoryNode.StringNode str] } := by
  simp [_pushConstString, hi, hstr, hfind, Machine.push_back]

theorem step_pushConstString_found (h : Host) (m : Machine) (byte i p : Nat) (str : String)
    (hfetch : m.m_operations[m.m_programCounter]? = some byte)
    (hop : h.decode byte = some Operation.PushConstString)
    (hi : m.m_operations[m.m_programCounter + 1]? = some i)
    (hstr : m.m_constStrings[i]? = some str)
    (hfind : findStringNode str m.m_memoryRoot 0 = some p) :
    step h m = Except.ok
      { m with m_programCounter := m.m_programCounter + 2,
               m_operationStack := m.m_operationStack ++ [MemoryValue.ofNode p] } := by
  have hrun : dispatch h (h.decode byte) m = Except.ok
      { m with m_programCounter := m.m_programCounter + 1,
               m_operationStack := m.m_operationStack ++ [MemoryValue.ofNode p] } := by
    rw [hop]
    exact pushConstString_found m i p str hi hstr hfind
  rw [step_of_dispatch_ok h m _ byte hfetch hrun]

theorem step_pushConstString_fresh (h : Host) (m : Machine) (byte i : Nat) (str : String)
    (hfetch : m.m_operations[m.m_programCounter]? = some byte)
    (hop : h.decode byte = some Operation.PushConstString)
    (hi : m.m_operations[m.m_programCounter + 1]? = some i)
    (hstr : m.m_constStrings[i]? = some str)
    (hfind : findStringNode str m.m_memoryRoot 0 = none) :
    step h m = Except.ok
      { m with m_programCounter := m.m_programCounter + 2,
               m_operationStack := m.m_operationStack ++ [MemoryValue.ofNode m.m_memoryRoot.length],
               m_memoryRoot := m.m_memoryRoot ++ [MemoryNode.StringNode str] } := by
  have hrun : dispatch h (h.decode byte) m = Except.ok
      { m with m_programCounter := m.m_programCounter + 1,
               m_operationStack := m.m_operationStack ++ [MemoryValue.ofNode m.m_memoryRoot.length],
               m_memoryRoot := m.m_memoryRoot ++ [MemoryNode.StringNode str] } := by
    rw [hop]
    exact pushConstString_fresh m i str hi hstr hfind
  rw [step_of_dispatch_ok h m _ byte hfetch hrun]

/-- C8: two consecutive `PushConstString i` instructions, from any heap and
any stack: the first `step` pushes a reference to a String object with the
text of constant `i`; the second `step` pushes a reference to that same
object and leaves the heap exactly as the first left it (no allocation). -/
theorem pushConstString_twice_same_object (h : Host) (m : Machine) (b1 b2 i : Nat)
    (str : String)
    (hfetch1 : m.m_operations[m.m_programCounter]? = some b1)
    (hop1 : h.decode b1 = some Operation.PushConstString)
    (hi1 : m.m_operations[m.m_programCounter + 1]? = some i)
    (hfetch2 : m.m_operations[m.m_programCounter + 2]? = some b2)
    (hop2 : h.decode b2 = some Operation.PushConstString)
    (hi2 : m.m_operations[m.m_programCounter + 2 + 1]? = some i)
    (hstr : m.m_constStrings[i]? = some str) :
    ∃ (p : Nat) (m1 : Machine),
      step h m = Except.ok m1
      ∧ m1.m_operationStack = m.m_operationStack ++ [MemoryValue.ofNode p]
      ∧ m1.m_memoryRoot[p]? = some (MemoryNode.StringNode str)
      ∧ step h m1 = Except.ok
          { m1 with m_operationStack :=
                      m.m_operationStack ++ [MemoryValue.ofNode p, MemoryValue.ofNode p],
                    m_programCounter := m.m_programCounter + 4 } := by
  cases hfind : findStringNode str m.m_memoryRoot 0 with
  | some p =>
    refine ⟨p, _, step_pushConstString_found h m b1 i p str hfetch1 hop1 hi1 hstr hfind,
      rfl, ?_, ?_⟩
    · simpa using (findStringNode_get str m.m_memoryRoot 0 p hfind).2
    · have h2 := step_pushConstString_found h
        { m with m_programCounter := m.m_programCounter + 2,
                 m_operationStack := m.m_operationStack ++ [MemoryValue.ofNode p] }
        b2 i p str hfetch2 hop2 hi2 hstr hfind
      rw [h2]
      simp
  | none =>
    have hfind2 := findStringNode_append_new str m.m_memoryRoot 0 hfind
    rw [Nat.zero_add] at hfind2
    refine ⟨m.m_memoryRoot.length, _,
      step_pushConstString_fresh h m b1 i str hfetch1 hop1 hi1 hstr hfind, rfl, ?_, ?_⟩
    · simp
    · have h2 := step_pushConstString_found h
        { m with m_programCounter := m.m_programCounter + 2,
                 m_operationStack :=
                   m.m_operationStack ++ [MemoryValue.ofNode m.m_memoryRoot.length],
                 m_memoryRoot := m.m_memoryRoot ++ [MemoryNode.StringNode str] }
        b2 i m.m_memoryRoot.length str hfetch2 hop2 hi2 hstr hfind2
      rw [h2]
      simp

/-- C8, evaluated: `PushConstString 0, PushConstString 0` from an empty heap
leaves two references to the one object at heap position 0. -/
theorem pushConstString_twice_same_object_witness :
    (∃ (p : Nat) (m1 : Machine),
      step demoHost (demoMachine [7, 0, 7, 0] [] []) = Except.ok m1
      ∧ m1.m_operationStack = [] ++ [MemoryValue.ofNode p]
      ∧ m1.m_memoryRoot[p]? = some (MemoryNode.StringNode "x")
      ∧ step demoHost m1 = Except.ok
          { m1 with m_operationStack := [] ++ [MemoryValue.ofNode p, MemoryValue.ofNode p],
                    m_programCounter := 0 + 4 })
    ∧ stepN demoHost 2 (demoMachine [7, 0, 7, 0] [] [])
      = Except.ok
          { demoMachine [7, 0, 7, 0] [MemoryValue.ofNode 0, MemoryValue.ofNode 0]
              [MemoryNode.StringNode "x"] with m_programCounter := 4 } :=
  ⟨pushConstString_twice_same_object demoHost (demoMachine [7, 0, 7, 0] [] []) 7 7 0 "x"
    rfl rfl rfl rfl rfl rfl rfl, by decide⟩

/-! ## Native calls -/

theorem call_native (h : Host) (m : Machine) (s : List MemoryValue) (func : MemoryValue)
    (f : Nat) (hstack : m.m_operationStack = s ++ [func]) (hfunc : func.value = Value.native f) :
    _call h m = h.natives f { m with m_operationStack := s } := by
  simp [_call, hstack, fromTop_one_append, Machine.pop_back, hfunc]

theorem call_not_native (h : Host) (m : Machine) (s : List MemoryValue) (func : MemoryValue)
    (hstack : m.m_operationStack = s ++ [func])
    (hfunc : holdsFunctionValue func.value = false) :
    _call h m = Except.error
      (RuntimeException.NotCallable, { m with m_operationStack := s }) := by
  obtain ⟨t, val⟩ := func
  cases val <;>
    simp_all [_call, fromTop_one_append, Machine.pop_back, holdsFunctionValue]

/-- C9: `Call` pops one value.  When the value holds no native callable the
handler raises `NotCallable` (operand popped); when it holds the callable
`f`, the outcome of the handler is the outcome of one invocation of `f` on
the machine with the operand popped, and `step` then advances the program
counter by one.  So, for callables that do not raise `NotCallable`
themselves, `NotCallable` is raised if and only if the popped value holds no
native callable. -/
theorem call_not_callable_iff (h : Host) (m : Machine) (s : List MemoryValue)
    (func : MemoryValue) (byte : Nat)
    (hstack : m.m_operationStack = s ++ [func])
    (hfetch : m.m_operations[m.m_programCounter]? = some byte)
    (hop : h.decode byte = some Operation.Call) :
    (holdsFunctionValue func.value = false →
        _call h m = Except.error
          (RuntimeException.NotCallable, { m with m_operationStack := s })
        ∧ step h m = Except.error
          (RuntimeException.NotCallable, { m with m_operationStack := s }))
    ∧ (∀ f, func.value = Value.native f →
        _call h m = h.natives f { m with m_operationStack := s }
        ∧ step h m =
            match h.natives f { m with m_operationStack := s } with
            | Except.ok m1 => Except.ok { m1 with m_programCounter := m1.m_programCounter + 1 }
            | Except.error e => Except.error e)
    ∧ ((∀ f m0 m1, h.natives f m0 ≠ Except.error (RuntimeException.NotCallable, m1)) →
        ((∃ m1, _call h m = Except.error (RuntimeException.NotCallable, m1))
          ↔ holdsFunctionValue func.value = false)) := by
  refine ⟨?_, ?_, ?_⟩
  · intro hfunc
    have hc := call_not_native h m s func hstack hfunc
    refine ⟨hc, ?_⟩
    apply step_of_dispatch_error h m _ byte hfetch
    rw [hop]
    exact hc
  · intro f hfunc
    have hc := call_native h m s func f hstack hfunc
    refine ⟨hc, ?_⟩
    simp only [step, hfetch, hop, dispatch, hc]
  · intro hnat
    constructor
    · rintro ⟨m1, hm1⟩
      cases hval : func.value with
      | native f =>
        rw [call_native h m s func f hstack hval] at hm1
        exact absurd hm1 (hnat f _ m1)
      | _ => rfl
    · intro hfunc
      exact ⟨_, call_not_native h m s func hstack hfunc⟩

/-- C9, evaluated: calling the integer 3 raises `NotCallable`; calling the
callable `0` of the demo host (which pushes 7) leaves exactly one 7 on the
stack and moves the program counter to 1. -/
theorem call_not_callable_iff_witness :
    step demoHost (demoMachine [3] [MemoryValue.ofInt 3] [])
      = Except.error (RuntimeException.NotCallable, demoMachine [3] [] [])
    ∧ step demoHost (demoMachine [3] [MemoryValue.ofFunction 0] [])
      = Except.ok { demoMachine [3] [MemoryValue.ofInt 7] [] with m_programCounter := 1 } :=
  ⟨((call_not_callable_iff demoHost (demoMachine [3] [MemoryValue.ofInt 3] []) []
      (MemoryValue.ofInt 3) 3 rfl rfl rfl).1 rfl).2, by decide⟩

/-! ## Unrecognized opcodes -/

/-- C10: when the byte under the program counter has no `case` in `step`, the
call returns without an error and the machine differs from the one before
only in the program counter, which is one higher: operand stack, globals and
heap are unchanged. -/
theorem step_unrecognized_opcode (h : Host) (m : Machine) (byte : Nat)
    (hfetch : m.m_operations[m.m_programCounter]? = some byte)
    (hop : h.decode byte = none) :
    step h m = Except.ok { m with m_programCounter := m.m_programCounter + 1 }
    ∧ ∃ m1, step h m = Except.ok m1
        ∧ m1.m_programCounter = m.m_programCounter + 1
        ∧ m1.m_operationStack = m.m_operationStack
        ∧ m1.m_variables = m.m_variables
        ∧ m1.m_memoryRoot = m.m_memoryRoot := by
  have hs : step h m = Except.ok { m with m_programCounter := m.m_programCounter + 1 } := by
    simp [step, hfetch, hop, dispatch]
  exact ⟨hs, _, hs, rfl, rfl, rfl, rfl⟩

/-- C10, evaluated: the byte 200 is no opcode of the demo numbering; stepping
over it only moves the program counter from 0 to 1. -/
theorem step_unrecognized_opcode_witness :
    step demoHost (demoMachine [200, 1] [MemoryValue.ofInt 3] [MemoryNode.StringNode "x"])
      = Except.ok { demoMachine [200, 1] [MemoryValue.ofInt 3] [MemoryNode.StringNode "x"] with
          m_programCounter := 0 + 1 } :=
  (step_unrecognized_opcode demoHost
    (demoMachine [200, 1] [MemoryValue.ofInt 3] [MemoryNode.StringNode "x"]) 200 rfl rfl).1

/-! ## Halting -/

theorem parseOperationConstantLoop_eq (operations : List Nat) (start size : Nat)
    (hsize : size ≤ 8)
    (hbytes : ∀ i, i < size → ∃ b, operations[start + i]? = some b ∧ b < 256)
    (k res q : Nat) (hk : k ≤ size) (hres : res = 2 ^ (8 * k) * q) :
    parseOperationConstantLoop operations start size k res
      = some (res + ∑ j in Finset.range k, operations.getD (start + (size - k + j)) 0 * 256 ^ (k - 1 - j)) := by
  induction k generalizing res q with
  | zero => simp [parseOperationConstantLoop]
  | succ k ih =>
    obtain ⟨b, hb, hb256⟩ := hbytes (size - (k + 1)) (by omega)
    have hoff : (size - (size - (k + 1)) - 1) * 8 = 8 * k := by omega
    have hshift : (b <<< (8 * k)) % 2 ^ 64 = 2 ^ (8 * k) * b := by
      rw [Nat.shiftLeft_eq, Nat.mul_comm]
      apply Nat.mod_eq_of_lt
      calc 2 ^ (8 * k) * b < 2 ^ (8 * k) * 256 := by
              apply Nat.mul_lt_mul_of_pos_left hb256 (Nat.two_pow_pos _)
        _ = 2 ^ (8 * k + 8) := by rw [Nat.pow_add]
        _ ≤ 2 ^ 64 := Nat.pow_le_pow_right (by norm_num) (by omega)
    have hlt : 2 ^ (8 * k) * b < 2 ^ (8 * (k + 1)) := by
      calc 2 ^ (8 * k) * b < 2 ^ (8 * k) * 256 := by
              apply Nat.mul_lt_mul_of_pos_left hb256 (Nat.two_pow_pos _)
        _ = 2 ^ (8 * (k + 1)) := by rw [Nat.mul_add, Nat.pow_add]
    have hor : res ||| (2 ^ (8 * k) * b) = res + 2 ^ (8 * k) * b := by
      rw [hres]
      exact (Nat.mul_add_lt_is_or hlt q).symm
    have hnext : res + 2 ^ (8 * k) * b = 2 ^ (8 * k) * (256 * q + b) := by
      rw [hres, Nat.mul_add 8 k 1, Nat.pow_add]
      ring
    simp only [parseOperationConstantLoop, hb, hoff, hshift, hor]
    rw [ih (res + 2 ^ (8 * k) * b) (256 * q + b) (by omega) hnext]
    rw [Finset.sum_range_succ']
    have hget : operations.getD (start + (size - (k + 1) + 0)) 0 = b := by
      simp [List.getD, hb]
    have hidx : ∀ j, size - (k + 1) + (j + 1) = size - k + j := by intro j; omega
    simp only [hidx, hget, Nat.add_sub_cancel, Nat.sub_zero]
    have hpow : (256 : Nat) ^ k = 2 ^ (8 * k) := by
      rw [show (256 : Nat) = 2 ^ 8 by norm_num, ← Nat.pow_mul]
    have hsum : ∀ j ∈ Finset.range k, operations.getD (start + (size - k + j)) 0 * 256 ^ (k - (j + 1))
        = operations.getD (start + (size - k + j)) 0 * 256 ^ (k - 1 - j) := by
      intro j _
      congr 2
      omega
    rw [Finset.sum_congr rfl hsum, hpow]
    congr 1
    ring


theorem bigEndian_sum_lt (f : Nat → Nat) (hf : ∀ i, f i < 256) (n : Nat) :
    ∑ i in Finset.range n, f i * 256 ^ (n - 1 - i) < 256 ^ n := by
  induction n generalizing f with
  | zero => simp
  | succ n ih =>
    rw [Finset.sum_range_succ']
    have hsum : ∀ i ∈ Finset.range n, f (i + 1) * 256 ^ (n + 1 - 1 - (i + 1))
        = f (i + 1) * 256 ^ (n - 1 - i) := by
      intro i _
      congr 2
      omega
    rw [Finset.sum_congr rfl hsum]
    have h1 := ih (fun i => f (i + 1)) (fun i => hf (i + 1))
    simp only at h1
    have h0 : f 0 * 256 ^ n ≤ 255 * 256 ^ n :=
      Nat.mul_le_mul_right _ (by have := hf 0; omega)
    simp only [Nat.add_sub_cancel, Nat.sub_zero]
    rw [Nat.pow_succ]
    omega

/-- C12: for a width of `size ≤ 8` bytes and a start offset with `size` bytes
available in `m_operations` (each byte a `uint8_t`),
`_parseOperationConstant` returns the value whose unsigned bit pattern is
the sum over `i < size` of `m_operations[start + i] * 256 ^ (size - 1 - i)`:
the first byte is the most significant one. -/
theorem parseOperationConstant_msb_first (m : Machine) (size start : Nat)
    (hsize : size ≤ 8)
    (havail : start + size ≤ m.m_operations.length)
    (hbyte : ∀ b ∈ m.m_operations, b < 256) :
    _parseOperationConstant m size start
      = some (∑ i in Finset.range size, m.m_operations.getD (start + i) 0 * 256 ^ (size - 1 - i)) := by
  have hbytes : ∀ i, i < size → ∃ b, m.m_operations[start + i]? = some b ∧ b < 256 := by
    intro i hi
    have hlt : start + i < m.m_operations.length := by omega
    exact ⟨m.m_operations[start + i], List.getElem?_eq_getElem hlt,
      hbyte _ (List.getElem_mem _)⟩
  have hloop := parseOperationConstantLoop_eq m.m_operations start size hsize hbytes size 0 0
    (Nat.le_refl _) (by simp)
  have hf : ∀ i, m.m_operations.getD (start + i) 0 < 256 := by
    intro i
    rw [List.getD_eq_getElem?_getD]
    cases hget : m.m_operations[start + i]? with
    | none => simp
    | some b => simpa using hbyte b (List.getElem?_mem hget)
  have hlt := bigEndian_sum_lt (fun i => m.m_operations.getD (start + i) 0) hf size
  have hpow : (2 : Nat) ^ (8 * size) = 256 ^ size := by
    rw [show (256 : Nat) = 2 ^ 8 by norm_num, ← Nat.pow_mul]
  simp only [Nat.sub_self, Nat.zero_add] at hloop
  simp only [_parseOperationConstant, hloop, hpow]
  rw [Nat.mod_eq_of_lt hlt]

/-- C12, evaluated: the two bytes `2, 3` at offset 1 decode to
`2 * 256 + 3 = 515`. -/
theorem parseOperationConstant_msb_first_witness :
    _parseOperationConstant (demoMachine [1, 2, 3, 4, 5] [] []) 2 1 = some 515 :=
  (parseOperationConstant_msb_first (demoMachine [1, 2, 3, 4, 5] [] []) 2 1
    (by decide) (by decide) (by decide)).trans (by decide)

/-! ## Integer constants -/

theorem pushConstInt_eq (m : Machine) (i : Nat) (c : Int)
    (hi : m.m_operations[m.m_programCounter + 1]? = some i)
    (hc : m.m_constInts[i]? = some c) :
    _pushConstInt m = Except.ok
      { m with m_operationStack := m.m_operationStack ++ [MemoryValue.ofInt c],
               m_programCounter := m.m_programCounter + 1 } := by
  simp [_pushConstInt, hi, hc, Machine.push_back]

/-- C13: at a `PushConstInt` opcode followed by the index byte `i` of an
entry `c` of the integer constant table, one `step()` returns with the stack
`s ++ [Int c]` and the program counter two higher (past the opcode and its
immediate), everything else unchanged; the byte the next `step()` fetches is
the one behind the immediate. -/
theorem step_pushConstInt (h : Host) (m : Machine) (s : List MemoryValue) (byte i : Nat)
    (c : Int) (hfetch : m.m_operations[m.m_programCounter]? = some byte)
    (hop : h.decode byte = some Operation.PushConstInt)
    (hi : m.m_operations[m.m_programCounter + 1]? = some i)
    (hc : m.m_constInts[i]? = some c)
    (hstack : m.m_operationStack = s) :
    step h m = Except.ok
        { m with m_operationStack := s ++ [MemoryValue.ofInt c],
                 m_programCounter := m.m_programCounter + 2 }
    ∧ ∀ m1, step h m = Except.ok m1 →
        m1.m_operations[m1.m_programCounter]? = m.m_operations[m.m_programCounter + 2]? := by
  have hrun : dispatch h (h.decode byte) m = Except.ok
      { m with m_operationStack := m.m_operationStack ++ [MemoryValue.ofInt c],
               m_programCounter := m.m_programCounter + 1 } := by
    rw [hop]
    exact pushConstInt_eq m i c hi hc
  have hs : step h m = Except.ok
      { m with m_operationStack := s ++ [MemoryValue.ofInt c],
               m_programCounter := m.m_programCounter + 2 } := by
    rw [step_of_dispatch_ok h m _ byte hfetch hrun, hstack]
  refine ⟨hs, ?_⟩
  intro m1 hm1
  rw [hs] at hm1
  cases hm1
  rfl

/-- C13, evaluated: `PushConstInt 1` on the stack `[3]` pushes the constant
number 1 (the value 20) and moves the counter from 0 to 2. -/
theorem step_pushConstInt_witness :
    step demoHost (demoMachine [6, 1, 1] [MemoryValue.ofInt 3] [])
      = Except.ok { demoMachine [6, 1, 1] [MemoryValue.ofInt 3] [] with
          m_operationStack := [MemoryValue.ofInt 3] ++ [MemoryValue.ofInt 20],
          m_programCounter := 0 + 2 } :=
  (step_pushConstInt demoHost (demoMachine [6, 1, 1] [MemoryValue.ofInt 3] [])
    [MemoryValue.ofInt 3] 6 1 20 rfl rfl rfl rfl rfl).1

/-! ## Registering native callables -/

/-- C14: after `addFunction(f, name)` the global `name` is bound to the value
with the native-callable tag that holds `f` (whatever it was bound to
before), every other global is bound as before, a `Get` on a String with the
text `name` pushes that value, and a `Call` on it has the outcome of invoking
`f` on the machine with the operand popped. -/
theorem addFunction_installs (h : Host) (m : Machine) (s : List MemoryValue) (func : Nat)
    (name : String) (nameV : MemoryValue) (p : Nat)
    (hname : nameV.value = Value.ref p)
    (hp : m.m_memoryRoot[p]? = some (MemoryNode.StringNode name))
    (hstack : m.m_operationStack = s ++ [nameV]) :
    lookup (addFunction m func name).m_variables name
        = some ⟨TypeTag.NativeFunction, Value.native func⟩
    ∧ (∀ other, other ≠ name →
        lookup (addFunction m func name).m_variables other = lookup m.m_variables other)
    ∧ _get (addFunction m func name)
        = Except.ok { addFunction m func name with
            m_operationStack := s ++ [MemoryValue.ofFunction func] }
    ∧ _call h { addFunction m func name with
            m_operationStack := s ++ [MemoryValue.ofFunction func] }
        = h.natives func { addFunction m func name with m_operationStack := s } := by
  have hl : lookup (addFunction m func name).m_variables name
      = some (MemoryValue.ofFunction func) := lookup_assign_same _ _ _
  refine ⟨hl, fun other hne => lookup_assign_other _ _ _ _ hne, ?_, ?_⟩
  · exact get_bound (addFunction m func name) s name nameV (MemoryValue.ofFunction func) p
      hname hp hstack hl
  · exact call_native h _ s (MemoryValue.ofFunction func) func rfl rfl

/-- C14, evaluated: with callable `0` of the demo host (it pushes 7)
registered as `"x"`, the program `PushConstString 0, Get, Call` ends with
the stack `[7]`. -/
theorem addFunction_installs_witness :
    lookup (addFunction (demoMachine [] [MemoryValue.ofNode 0] [MemoryNode.StringNode "x"])
        0 "x").m_variables "x" = some ⟨TypeTag.NativeFunction, Value.native 0⟩
    ∧ stepN demoHost 3 (addFunction (demoMachine [7, 0, 5, 3] [] []) 0 "x")
      = Except.ok
          { demoMachine [7, 0, 5, 3] [MemoryValue.ofInt 7] [MemoryNode.StringNode "x"] with
            m_programCounter := 4,
            m_variables := [("x", MemoryValue.ofFunction 0)] } :=
  ⟨(addFunction_installs demoHost
      (demoMachine [] [MemoryValue.ofNode 0] [MemoryNode.StringNode "x"]) [] 0 "x"
      (MemoryValue.ofNode 0) 0 rfl rfl rfl).1, by decide⟩

/-! ## Operands of the wrong kind -/

theorem addInt_not_int (m : Machine) (s : List MemoryValue) (x y : MemoryValue)
    (hstack : m.m_operationStack = s ++ [x, y])
    (hnot : ¬ (holdsInt32 x.value = true ∧ holdsInt32 y.value = true)) :
    _addInt m = Except.error
      (RuntimeException.BadVariantAccess, { m with m_operationStack := s }) := by
  obtain ⟨tx, vx⟩ := x
  obtain ⟨ty, vy⟩ := y
  cases vx <;> cases vy <;>
    simp_all [_addInt, fromTop_one_append_two, fromTop_two_append_two, Machine.pop_back,
      dropLast_append_two, holdsInt32]

theorem subInt_not_int (m : Machine) (s : List MemoryValue) (x y : MemoryValue)
    (hstack : m.m_operationStack = s ++ [x, y])
    (hnot : ¬ (holdsInt32 x.value = true ∧ holdsInt32 y.value = true)) :
    _subInt m = Except.error
      (RuntimeException.BadVariantAccess, { m with m_operationStack := s }) := by
  obtain ⟨tx, vx⟩ := x
  obtain ⟨ty, vy⟩ := y
  cases vx <;> cases vy <;>
    simp_all [_subInt, fromTop_one_append_two, fromTop_two_append_two, Machine.pop_back,
      dropLast_append_two, holdsInt32]

/-- C15, as stated, fails: with a heap reference below an integer, `Add` and
`Sub` do not raise `TypeMismatch`; what escapes is `std::bad_variant_access`
from `std::get<int32_t>`. -/
theorem arith_raises_bad_variant_access :
    _addInt (demoMachine [] [MemoryValue.ofNode 0, MemoryValue.ofInt 1]
        [MemoryNode.StringNode "x"])
      = Except.error (RuntimeException.BadVariantAccess,
          demoMachine [] [] [MemoryNode.StringNode "x"])
    ∧ _subInt (demoMachine [] [MemoryValue.ofNode 0, MemoryValue.ofInt 1]
        [MemoryNode.StringNode "x"])
      = Except.error (RuntimeException.BadVariantAccess,
          demoMachine [] [] [MemoryNode.StringNode "x"]) := by
  decide

/-- C15, amended: when the top two values of the operand stack do not both
hold an `int32_t`, `Add` and `Sub` fail with `std::bad_variant_access` (the
handlers make no check of their own and raise no `TypeMismatch`); the two
operands stay popped, no result is pushed, the program counter does not
move, and no bits are reinterpreted. -/
theorem arith_non_int_operands (h : Host) (m : Machine) (s : List MemoryValue)
    (x y : MemoryValue) (byte : Nat)
    (hfetch : m.m_operations[m.m_programCounter]? = some byte)
    (hstack : m.m_operationStack = s ++ [x, y])
    (hnot : ¬ (holdsInt32 x.value = true ∧ holdsInt32 y.value = true)) :
    _addInt m = Except.error
        (RuntimeException.BadVariantAccess, { m with m_operationStack := s })
    ∧ _subInt m = Except.error
        (RuntimeException.BadVariantAccess, { m with m_operationStack := s })
    ∧ (h.decode byte = some Operation.Add ∨ h.decode byte = some Operation.Sub →
        step h m = Except.error
          (RuntimeException.BadVariantAccess, { m with m_operationStack := s })) := by
  have ha := addInt_not_int m s x y hstack hnot
  have hs := subInt_not_int m s x y hstack hnot
  refine ⟨ha, hs, ?_⟩
  rintro (hop | hop)
  · apply step_of_dispatch_error h m _ byte hfetch
    rw [hop]
    exact ha
  · apply step_of_dispatch_error h m _ byte hfetch
    rw [hop]
    exact hs

/-- C15 amended, evaluated: `Add` on a native callable and an integer. -/
theorem arith_non_int_operands_witness :
    step demoHost (demoMachine [1] [MemoryValue.ofFunction 0, MemoryValue.ofInt 1] [])
      = Except.error (RuntimeException.BadVariantAccess, demoMachine [1] [] []) :=
  (arith_non_int_operands demoHost
    (demoMachine [1] [MemoryValue.ofFunction 0, MemoryValue.ofInt 1] []) []
    (MemoryValue.ofFunction 0) (MemoryValue.ofInt 1) 1 rfl rfl (by decide)).2.2 (Or.inl rfl)

/-! ## Failing steps -/

/-- C16: when a `step()` fails on `Get` of an unbound name, on `Call` of a
value that holds no callable, or on `GetArray`/`SetArray` with an array
operand that holds no heap reference, the machine it leaves behind has the
operands of the handler removed from the stack, the program counter still on
the failing opcode, and the globals and the heap as they were. -/
theorem failing_step_no_rollback (h : Host) (m : Machine) (s : List MemoryValue) (byte : Nat)
    (hfetch : m.m_operations[m.m_programCounter]? = some byte) :
    (∀ (nameV : MemoryValue) (p : Nat) (n : String),
        h.decode byte = some Operation.Get → m.m_operationStack = s ++ [nameV] →
        nameV.value = Value.ref p → m.m_memoryRoot[p]? = some (MemoryNode.StringNode n) →
        lookup m.m_variables n = none →
        ∃ m1, step h m = Except.error (RuntimeException.UndefinedVariable n, m1)
          ∧ m1.m_operationStack = s ∧ m1.m_programCounter = m.m_programCounter
          ∧ m1.m_variables = m.m_variables ∧ m1.m_memoryRoot = m.m_memoryRoot)
    ∧ (∀ func : MemoryValue,
        h.decode byte = some Operation.Call → m.m_operationStack = s ++ [func] →
        holdsFunctionValue func.value = false →
        ∃ m1, step h m = Except.error (RuntimeException.NotCallable, m1)
          ∧ m1.m_operationStack = s ∧ m1.m_programCounter = m.m_programCounter
          ∧ m1.m_variables = m.m_variables ∧ m1.m_memoryRoot = m.m_memoryRoot)
    ∧ (∀ index array : MemoryValue,
        h.decode byte = some Operation.GetArray → m.m_operationStack = s ++ [index, array] →
        holdsMemoryNode array.value = false →
        ∃ m1, step h m = Except.error (RuntimeException.TypeMismatch array.type, m1)
          ∧ m1.m_operationStack = s ∧ m1.m_programCounter = m.m_programCounter
          ∧ m1.m_variables = m.m_variables ∧ m1.m_memoryRoot = m.m_memoryRoot)
    ∧ (∀ index array v : MemoryValue,
        h.decode byte = some Operation.SetArray →
        m.m_operationStack = s ++ [index, array, v] →
        holdsMemoryNode array.value = false →
        ∃ m1, step h m = Except.error (RuntimeException.TypeMismatch array.type, m1)
          ∧ m1.m_operationStack = s ∧ m1.m_programCounter = m.m_programCounter
          ∧ m1.m_variables = m.m_variables ∧ m1.m_memoryRoot = m.m_memoryRoot) := by
  refine ⟨?_, ?_, ?_, ?_⟩
  · intro nameV p n hop hstack hname hp hv
    refine ⟨{ m with m_operationStack := s }, ?_, rfl, rfl, rfl, rfl⟩
    apply step_of_dispatch_error h m _ byte hfetch
    rw [hop]
    exact get_unbound m s n nameV p hname hp hstack hv
  · intro func hop hstack hfunc
    refine ⟨{ m with m_operationStack := s }, ?_, rfl, rfl, rfl, rfl⟩
    apply step_of_dispatch_error h m _ byte hfetch
    rw [hop]
    exact call_not_native h m s func hstack hfunc
  · intro index array hop hstack harray
    refine ⟨{ m with m_operationStack := s }, ?_, rfl, rfl, rfl, rfl⟩
    apply step_of_dispatch_error h m _ byte hfetch
    rw [hop]
    exact getArray_not_ref m s index array hstack harray
  · intro index array v hop hstack harray
    refine ⟨{ m with m_operationStack := s }, ?_, rfl, rfl, rfl, rfl⟩
    apply step_of_dispatch_error h m _ byte hfetch
    rw [hop]
    exact setArray_not_ref m s index array v hstack harray

/-- C16, evaluated: a `step()` at `Get` of the unbound name `"x"` on the
stack `[4, "x"]` fails and leaves the stack `[4]`, the counter at 0 and no
globals. -/
theorem failing_step_no_rollback_witness :
    ∃ m1, step demoHost
        (demoMachine [5] [MemoryValue.ofInt 4, MemoryValue.ofNode 0] [MemoryNode.StringNode "x"])
        = Except.error (RuntimeException.UndefinedVariable "x", m1)
      ∧ m1.m_operationStack = [MemoryValue.ofInt 4] ∧ m1.m_programCounter = 0
      ∧ m1.m_variables = [] ∧ m1.m_memoryRoot = [MemoryNode.StringNode "x"] :=
  (failing_step_no_rollback demoHost
    (demoMachine [5] [MemoryValue.ofInt 4, MemoryValue.ofNode 0] [MemoryNode.StringNode "x"])
    [MemoryValue.ofInt 4] 5 rfl).1 (MemoryValue.ofNode 0) 0 "x" rfl rfl rfl rfl rfl

/-! ## Frame of `Set` -/

/-- C19: `Set` on `s ++ [String n, v]` returns with the stack `s` and the
global `n` bound to `v`; the binding of every other name (a registered
native callable included), the heap, the constant tables and the program
counter are as before, and `step()` adds one to the counter. -/
theorem set_changes_only_named_global (h : Host) (m : Machine) (s : List MemoryValue)
    (n : String) (name v : MemoryValue) (p : Nat) (byte : Nat)
    (hname : name.value = Value.ref p)
    (hp : m.m_memoryRoot[p]? = some (MemoryNode.StringNode n))
    (hstack : m.m_operationStack = s ++ [name, v])
    (hfetch : m.m_operations[m.m_programCounter]? = some byte)
    (hop : h.decode byte = some Operation.Set) :
    ∃ m1, _set m = Except.ok m1
      ∧ step h m = Except.ok { m1 with m_programCounter := m.m_programCounter + 1 }
      ∧ m1.m_operationStack = s
      ∧ lookup m1.m_variables n = some v
      ∧ (∀ other, other ≠ n → lookup m1.m_variables other = lookup m.m_variables other)
      ∧ m1.m_memoryRoot = m.m_memoryRoot
      ∧ m1.m_programCounter = m.m_programCounter := by
  have hset := set_eq m s n name v p hname hp hstack
  refine ⟨_, hset, ?_, rfl, lookup_assign_same _ _ _,
    fun other hne => lookup_assign_other _ _ _ _ hne, rfl, rfl⟩
  have hrun : dispatch h (h.decode byte) m = Except.ok
      { m with m_operationStack := s, m_variables := assign m.m_variables n v } := by
    rw [hop]
    exact hset
  rw [step_of_dispatch_ok h m _ byte hfetch hrun]

/-- C19, evaluated: with the callable `0` registered as `"print"`, setting
`"x"` to 5 keeps `"print"` bound to the callable. -/
theorem set_changes_only_named_global_witness :
    ∃ m1, _set (addFunction (demoMachine [4] [MemoryValue.ofNode 0, MemoryValue.ofInt 5]
          [MemoryNode.StringNode "x"]) 0 "print") = Except.ok m1
      ∧ lookup m1.m_variables "x" = some (MemoryValue.ofInt 5)
      ∧ lookup m1.m_variables "print" = some (MemoryValue.ofFunction 0) := by
  obtain ⟨m1, h1, _, _, h4, h5, _, _⟩ := set_changes_only_named_global demoHost
    (addFunction (demoMachine [4] [MemoryValue.ofNode 0, MemoryValue.ofInt 5]
      [MemoryNode.StringNode "x"]) 0 "print")
    [] "x" (MemoryValue.ofNode 0) (MemoryValue.ofInt 5) 0 4 rfl rfl rfl rfl rfl
  exact ⟨m1, h1, h4, (h5 "print" (by decide)).trans (by decide)⟩

/-! ## Progress of the program counter -/

theorem parseInt_error_fields (t : Tables) (p : Parser) (e : ParsingError)
    (h : parseInt t p = Except.error e) :
    e.m_row = p.getColumnNumber ∧ e.m_column = p.getLineNumber
    ∧ e.m_message = constantTooLarge := by
  unfold parseInt at h
  dsimp only at h
  split at h
  · cases h
  · split at h
    · cases h
    · cases h
    · cases h
      exact ⟨rfl, rfl, rfl⟩

/-- C17 fails in `parseInt`: on the one-line source `"  99999999999"` the
cursor stands at line 0, column 2 when the constant is found too large, and
the `ParsingError` that `parse()` lets escape has `m_row = 2` and
`m_column = 0` (the column in the row field, the line in the column field),
rendered `"Error at line 2 row 0: ..."`.  The other throw of the tokenizer
keeps the order: the unknown character at line 0, column 2 of `"a $"` is
reported with `m_row = 0`, `m_column = 2`. -/
theorem parseInt_error_swaps_line_and_column :
    (skipWhitespace demoTables (Parser.ofLines ["  99999999999"])).getLineNumber = 0
    ∧ (skipWhitespace demoTables (Parser.ofLines ["  99999999999"])).getColumnNumber = 2
    ∧ parseInt demoTables (skipWhitespace demoTables (Parser.ofLines ["  99999999999"]))
        = Except.error (ParsingError.mk 2 0 constantTooLarge)
    ∧ parse demoTables (Parser.ofLines ["  99999999999"])
        = some (Except.error (ParsingError.mk 2 0 constantTooLarge))
    ∧ (ParsingError.mk 2 0 constantTooLarge).what
        = "Error at line 2 row 0: Constant number is too large, valid range is -2147483648< x < 2147483647"
    ∧ parse demoTables (Parser.ofLines ["a $"])
        = some (Except.error (ParsingError.mk 0 2 "Unknown character sequence")) :=
  ⟨by decide, by decide, by rfl, by rfl, by decide, by rfl⟩

/-! ## The stack interface of the host -/

/-- C21: for every machine (operand stack `s`) and value `v`,
`pushToStack(v)` followed by `getStackTopAndPop()` returns `v` and gives
back the machine as it was, so the stack is `s` again; `getStackTop()` after
`pushToStack(v)` returns `v`, and being a read it leaves the stack at
`s ++ [v]`; on an empty stack `getStackTop()` and `getStackTopAndPop()`
return null and the stack stays empty. -/
theorem stack_api_round_trip (m : Machine) (v : MemoryValue) :
    getStackTopAndPop (pushToStack m v) = (some v, m)
    ∧ (getStackTopAndPop (pushToStack m v)).2.m_operationStack = m.m_operationStack
    ∧ getStackTop (pushToStack m v) = some v
    ∧ (pushToStack m v).m_operationStack = m.m_operationStack ++ [v]
    ∧ (m.m_operationStack = [] →
        getStackTop m = none ∧ getStackTopAndPop m = (none, m)
        ∧ (getStackTopAndPop m).2.m_operationStack = []) := by
  have hne : m.m_operationStack ++ [v] ≠ [] := by simp
  have hpop : getStackTopAndPop (pushToStack m v) = (some v, m) := by
    simp [getStackTopAndPop, pushToStack, Machine.push_back, Machine.pop_back]
  refine ⟨hpop, by rw [hpop], ?_, rfl, ?_⟩
  · simp [getStackTop, pushToStack, Machine.push_back]
  · intro hempty
    simp [getStackTop, getStackTopAndPop, hempty]

/-- C21, evaluated: on the empty stack of a fresh machine both reads return
null; after `pushToStack(5)` on the stack `[1]`, `getStackTopAndPop()`
returns 5 and leaves `[1]`. -/
theorem stack_api_round_trip_witness :
    getStackTop (demoMachine [] [] []) = none
    ∧ getStackTopAndPop (demoMachine [] [] []) = (none, demoMachine [] [] [])
    ∧ getStackTopAndPop (pushToStack (demoMachine [] [MemoryValue.ofInt 1] [])
        (MemoryValue.ofInt 5))
      = (some (MemoryValue.ofInt 5), demoMachine [] [MemoryValue.ofInt 1] []) :=
  have hempty := (stack_api_round_trip (demoMachine [] [] []) (MemoryValue.ofInt 5)).2.2.2.2 rfl
  ⟨hempty.1, hempty.2.1, by decide⟩

/-! ## The extent of `parse` -/

theorem parse_at_end_of_line (t : Tables) (p : Parser)
    (hend : p.atEndOfTheLine 0 = true) : parse t p = some (Except.ok p) := by
  simp [parse, Parser.fuel, parseLoop, hend]

/-- C24 fails on the source `a`, empty line, `b`: the constructor splits it
into the three lines `"a"`, `""`, `"b"`, and `parse()` returns after the
token of `a` with the cursor at the start of the empty line 1; no token for
`b` is produced.  Without the empty line the same text yields both tokens. -/
theorem parse_stops_at_empty_line :
    (Parser.ofString demoSource).m_code = ["a", "", "b"]
    ∧ parse demoTables (Parser.ofString demoSource)
      = some (Except.ok
          { m_code := ["a", "", "b"], m_lineIt := 1, m_rowIt := 0,
            m_tokens := [Token.IdToken 0 0 0], m_ids := ["a"], m_ints := [] })
    ∧ parse demoTables (Parser.ofLines ["a", "b"])
      = some (Except.ok
          { m_code := ["a", "b"], m_lineIt := 2, m_rowIt := 1,
            m_tokens := [Token.IdToken 0 0 0, Token.IdToken 1 0 1],
            m_ids := ["a", "b"], m_ints := [] }) :=
  ⟨by decide, by rfl, by rfl⟩

/-! ## Scanning and advancing the cursor -/

theorem getD_length_le_sum (code : List String) (i : Nat) :
    (code.getD i "").length ≤ (code.map String.length).sum := by
  induction code generalizing i with
  | nil => simp
  | cons s rest ih =>
    cases i with
    | zero => simp
    | succ i =>
      have := ih i
      simp only [List.getD_cons_succ, List.map_cons, List.sum_cons]
      omega

theorem line_length_lt_fuel (p : Parser) : p.line.length < p.fuel := by
  have h := getD_length_le_sum p.m_code p.m_lineIt
  simp only [Parser.line, Parser.fuel]
  have hlen : (p.m_code.getD p.m_lineIt "").data.length = (p.m_code.getD p.m_lineIt "").length := rfl
  omega

theorem scanWhile_eq_takeWhile (accept : Char → Bool) (hnul : accept (Char.ofNat 0) = false)
    (p : Parser) (fuel : Nat) :
    ∀ offset, p.line.length < fuel + (p.m_rowIt + offset) →
      scanWhile accept p fuel offset = (p.line.drop (p.m_rowIt + offset)).takeWhile accept := by
  induction fuel with
  | zero =>
    intro offset hlt
    have hdrop : p.line.drop (p.m_rowIt + offset) = [] := List.drop_eq_nil_of_le (by omega)
    rw [hdrop]
    rfl
  | succ fuel ih =>
    intro offset hlt
    rw [scanWhile]
    rcases Nat.lt_or_ge (p.m_rowIt + offset) p.line.length with hin | hout
    · have hat : p.atEndOfTheLine offset = false := by
        simp only [Parser.atEndOfTheLine, decide_eq_false_iff_not]
        omega
      have hdrop : p.line.drop (p.m_rowIt + offset)
          = p.line[p.m_rowIt + offset] :: p.line.drop (p.m_rowIt + offset + 1) :=
        List.drop_eq_getElem_cons hin
      have hpeek : p.peek offset = p.line[p.m_rowIt + offset] := by
        unfold Parser.peek
        rw [List.getD_eq_getElem?_getD, List.getElem?_eq_getElem hin]
        rfl
      have hnext := ih (offset + 1) (by omega)
      rw [← Nat.add_assoc] at hnext
      rw [hdrop, hpeek]
      by_cases hacc : accept p.line[p.m_rowIt + offset] = true
      · rw [if_pos ⟨hat, hacc⟩, List.takeWhile_cons_of_pos hacc, hnext]
      · rw [if_neg (fun hc => hacc hc.2), List.takeWhile_cons_of_neg hacc]
    · have hdrop : p.line.drop (p.m_rowIt + offset) = [] := List.drop_eq_nil_of_le hout
      rw [hdrop]
      have hcond : ¬ (p.atEndOfTheLine offset = false ∧ accept (p.peek offset) = true) := by
        rintro ⟨_, hacc⟩
        have hpeek : p.peek offset = Char.ofNat 0 := by
          unfold Parser.peek
          rw [List.getD_eq_getElem?_getD, List.getElem?_eq_none hout]
          rfl
        rw [hpeek, hnul] at hacc
        cases hacc
      rw [if_neg hcond]
      rfl

theorem scanWhile_fuel (accept : Char → Bool) (hnul : accept (Char.ofNat 0) = false)
    (p : Parser) :
    scanWhile accept p p.fuel 0 = (p.line.drop p.m_rowIt).takeWhile accept := by
  have h := scanWhile_eq_takeWhile accept hnul p p.fuel 0
    (by have := line_length_lt_fuel p; omega)
  simpa using h

theorem advanceRowIteratorAux_tables (stop : Bool) (fuel : Nat) :
    ∀ (p : Parser) (offset : Nat),
      (advanceRowIteratorAux stop fuel p offset).m_code = p.m_code
      ∧ (advanceRowIteratorAux stop fuel p offset).m_tokens = p.m_tokens
      ∧ (advanceRowIteratorAux stop fuel p offset).m_ids = p.m_ids
      ∧ (advanceRowIteratorAux stop fuel p offset).m_ints = p.m_ints := by
  induction fuel with
  | zero => intro p offset; exact ⟨rfl, rfl, rfl, rfl⟩
  | succ fuel ih =>
    intro p offset
    unfold advanceRowIteratorAux
    dsimp only
    split
    · split
      · exact ⟨rfl, rfl, rfl, rfl⟩
      · split
        · exact ih _ _
        · exact ⟨rfl, rfl, rfl, rfl⟩
    · exact ⟨rfl, rfl, rfl, rfl⟩

theorem advanceRowIterator_tables (t : Tables) (p : Parser) (offset : Nat) :
    (advanceRowIterator t p offset).m_code = p.m_code
    ∧ (advanceRowIterator t p offset).m_tokens = p.m_tokens
    ∧ (advanceRowIterator t p offset).m_ids = p.m_ids
    ∧ (advanceRowIterator t p offset).m_ints = p.m_ints :=
  advanceRowIteratorAux_tables _ _ p offset

theorem advanceRowIterator_inside (t : Tables) (p : Parser) (offset : Nat)
    (hin : p.m_rowIt + offset < p.line.length) :
    advanceRowIterator t p offset = { p with m_rowIt := p.m_rowIt + offset } := by
  have hmin : min offset (p.line.length - p.m_rowIt) = offset := by omega
  have hline : ∀ r, ({ p with m_rowIt := r } : Parser).line = p.line := fun _ => rfl
  have hne : ¬ (p.m_rowIt + offset = p.line.length) := by omega
  unfold advanceRowIterator advanceRowIteratorAux
  simp only [hline, hmin, if_neg hne]

theorem advanceRowIterator_to_end (t : Tables) (p : Parser) (offset : Nat)
    (hend : p.m_rowIt + offset = p.line.length) :
    advanceRowIterator t p offset =
      if p.m_lineIt + 1 = p.m_code.length then
        { p with m_rowIt := p.m_rowIt + offset, m_lineIt := p.m_lineIt + 1 }
      else { p with m_rowIt := 0, m_lineIt := p.m_lineIt + 1 } := by
  have hmin : min offset (p.line.length - p.m_rowIt) = offset := by omega
  have hline : ∀ r, ({ p with m_rowIt := r } : Parser).line = p.line := fun _ => rfl
  have hnot : ¬ (offset < offset ∧ ¬ t.stopAtEndOfTheLine = true) := fun hc => Nat.lt_irrefl _ hc.1
  unfold advanceRowIterator advanceRowIteratorAux
  simp only [hline, hmin, if_pos hend, if_neg hnot]

/-! ## Identifiers -/

theorem takeWhile_next_rejected (f : Char → Bool) (l : List Char) (c : Char)
    (h : l[(l.takeWhile f).length]? = some c) : f c = false := by
  induction l with
  | nil => simp at h
  | cons a rest ih =>
    by_cases ha : f a = true
    · rw [List.takeWhile_cons_of_pos ha] at h
      simp only [List.length_cons, List.getElem?_cons_succ] at h
      exact ih h
    · rw [List.takeWhile_cons_of_neg ha] at h
      simp only [List.length_nil, List.getElem?_cons_zero, Option.some.injEq] at h
      rw [← h]
      simpa using ha

theorem peek_zero_of_lt (p : Parser) (h : p.m_rowIt < p.line.length) :
    p.line.drop p.m_rowIt = p.peek 0 :: p.line.drop (p.m_rowIt + 1) := by
  have hpeek : p.peek 0 = p.line[p.m_rowIt] := by
    unfold Parser.peek
    rw [List.getD_eq_getElem?_getD, Nat.add_zero, List.getElem?_eq_getElem h]
    rfl
  rw [hpeek]
  exact List.drop_eq_getElem_cons h

theorem peek_zero_of_ge (p : Parser) (h : p.line.length ≤ p.m_rowIt) :
    p.peek 0 = Char.ofNat 0 := by
  unfold Parser.peek
  rw [List.getD_eq_getElem?_getD, Nat.add_zero, List.getElem?_eq_none h]
  rfl

theorem advanceRowIterator_to_end_line (t : Tables) (p : Parser) (offset : Nat)
    (hend : p.m_rowIt + offset = p.line.length) :
    (advanceRowIterator t p offset).m_lineIt = p.m_lineIt + 1 := by
  rw [advanceRowIterator_to_end t p offset hend]
  split <;> rfl

theorem parseId_eq (t : Tables) (p : Parser)
    (hstart : ¬ ((p.peek 0).isAlpha = false ∧ p.peek 0 ≠ '_')) :
    parseId t p = some
      (Token.IdToken p.m_lineIt p.m_rowIt
        (if p.m_ids.indexOf (String.mk p.idRun) = p.m_ids.length then p.m_ids.length
          else p.m_ids.indexOf (String.mk p.idRun)),
       advanceRowIterator t
        { p with m_ids :=
            if p.m_ids.indexOf (String.mk p.idRun) = p.m_ids.length
            then p.m_ids ++ [String.mk p.idRun] else p.m_ids }
        p.idRun.length) := by
  have hscan : scanWhile (fun c => c.isAlphanum || c == '_') p p.fuel 0 = p.idRun :=
    scanWhile_fuel _ (by decide) p
  unfold parseId
  rw [if_neg hstart]
  simp only [hscan, Parser.getLineNumber, Parser.getColumnNumber]
  by_cases hfound : p.m_ids.indexOf (String.mk p.idRun) = p.m_ids.length
  · simp [hfound, String.length]
  · simp [hfound, String.length]

theorem idRun_facts (p : Parser)
    (hstart : ¬ ((p.peek 0).isAlpha = false ∧ p.peek 0 ≠ '_')) :
    p.m_rowIt < p.line.length
    ∧ (∃ rest, p.idRun = p.peek 0 :: rest)
    ∧ p.m_rowIt + p.idRun.length ≤ p.line.length := by
  have hlt : p.m_rowIt < p.line.length := by
    rcases Nat.lt_or_ge p.m_rowIt p.line.length with h | h
    · exact h
    · exfalso
      apply hstart
      rw [peek_zero_of_ge p h]
      decide
  have hacc : (fun c : Char => c.isAlphanum || c == '_') (p.peek 0) = true := by
    by_cases hu : p.peek 0 = '_'
    · simp [hu]
    · have ha : (p.peek 0).isAlpha = true := by
        cases hv : (p.peek 0).isAlpha with
        | true => rfl
        | false => exact absurd ⟨hv, hu⟩ hstart
      simp [Char.isAlphanum, ha]
  refine ⟨hlt, ?_, ?_⟩
  · refine ⟨(p.line.drop (p.m_rowIt + 1)).takeWhile (fun c => c.isAlphanum || c == '_'), ?_⟩
    unfold Parser.idRun
    rw [peek_zero_of_lt p hlt]
    exact @List.takeWhile_cons_of_pos Char (fun c => c.isAlphanum || c == '_') (p.peek 0) _ hacc
  · have hle : p.idRun.length ≤ (p.line.drop p.m_rowIt).length :=
      (List.takeWhile_sublist _).length_le
    rw [List.length_drop] at hle
    omega

theorem idTable_insert (ids : List String) (id : String) :
    (if ids.indexOf id = ids.length then ids ++ [id] else ids)[
        if ids.indexOf id = ids.length then ids.length else ids.indexOf id]? = some id
    ∧ ids <+: (if ids.indexOf id = ids.length then ids ++ [id] else ids)
    ∧ (ids.Nodup → (if ids.indexOf id = ids.length then ids ++ [id] else ids).Nodup) := by
  by_cases hfound : ids.indexOf id = ids.length
  · have hnot : id ∉ ids := List.indexOf_eq_length.mp hfound
    simp only [hfound, if_true]
    refine ⟨by simp, List.prefix_append _ _, ?_⟩
    intro hnd
    rw [List.nodup_append]
    exact ⟨hnd, List.nodup_singleton _, by simpa using hnot⟩
  · have hmem : id ∈ ids := by
      have hlt : ids.indexOf id < ids.length :=
        Nat.lt_of_le_of_ne List.indexOf_le_length hfound
      exact List.indexOf_lt_length.mp hlt
    simp only [hfound, if_false]
    exact ⟨List.getElem?_indexOf hmem, List.prefix_refl _, fun hnd => hnd⟩

theorem prefix_getElem? (l1 l2 : List String) (hp : l1 <+: l2) (i : Nat) (s : String)
    (h : l1[i]? = some s) : l2[i]? = some s := by
  obtain ⟨rest, hrest⟩ := hp
  rw [← hrest]
  have hlt : i < l1.length := by
    rcases Nat.lt_or_ge i l1.length with h1 | h1
    · exact h1
    · rw [List.getElem?_eq_none h1] at h
      cases h
  rw [List.getElem?_append_left hlt]
  exact h

theorem parseId_table (t : Tables) (p p1 : Parser) (token : Token)
    (h : parseId t p = some (token, p1)) :
    p.m_ids <+: p1.m_ids ∧ (p.m_ids.Nodup → p1.m_ids.Nodup) := by
  by_cases hstart : (p.peek 0).isAlpha = false ∧ p.peek 0 ≠ '_'
  · simp [parseId, hstart] at h
  · rw [parseId_eq t p hstart] at h
    simp only [Option.some.injEq, Prod.mk.injEq] at h
    obtain ⟨_, hp1⟩ := h
    have hids := (advanceRowIterator_tables t
      { p with m_ids :=
          if p.m_ids.indexOf (String.mk p.idRun) = p.m_ids.length
          then p.m_ids ++ [String.mk p.idRun] else p.m_ids } p.idRun.length).2.2.1
    rw [hp1] at hids
    rw [hids]
    have hins := idTable_insert p.m_ids (String.mk p.idRun)
    exact ⟨hins.2.1, hins.2.2⟩

theorem idCalls_table (t : Tables) (p0 p : Parser) (hcalls : IdCalls t p0 p) :
    p0.m_ids <+: p.m_ids ∧ (p0.m_ids.Nodup → p.m_ids.Nodup) := by
  induction hcalls with
  | start => exact ⟨List.prefix_refl _, fun h => h⟩
  | call p p1 token _ hcall ih =>
    have hstep := parseId_table t p p1 token hcall
    exact ⟨List.IsPrefix.trans ih.1 hstep.1, fun h => hstep.2 (ih.2 h)⟩
  | other p p1 _ hsame ih =>
    rw [hsame]
    exact ih

/-- C22: `parseId` returns no token exactly when the cursor is not at a
letter or underscore.  When it returns a token, the text it consumed is the
maximal run of letters, digits and underscores at the cursor (it starts with
the letter or underscore under the cursor, every character of it is of that
kind and the character after it, if the line has one, is not), the cursor is
moved behind the run (to the next line when the run ends the line), the
token carries the line and column of the start of the run and an index
that resolves in the identifier table to exactly that text, every index
that resolved before resolves to the same text, and a table without
duplicates stays without duplicates.  So after any sequence of `parseId`
calls, with any steps in between that leave the table alone, a table that
started without duplicates has none and still resolves every earlier index
to the same text. -/
theorem parseId_identifier_table (t : Tables) (p : Parser) :
    (parseId t p = none ↔ ((p.peek 0).isAlpha = false ∧ p.peek 0 ≠ '_'))
    ∧ (∀ token p1, parseId t p = some (token, p1) →
        ∃ index rest,
          token = Token.IdToken p.getLineNumber p.getColumnNumber index
          ∧ p.idRun = p.peek 0 :: rest
          ∧ ((p.peek 0).isAlpha = true ∨ p.peek 0 = '_')
          ∧ (∀ c ∈ p.idRun, (c.isAlphanum || c == '_') = true)
          ∧ (∀ c, p.line[p.m_rowIt + p.idRun.length]? = some c →
              (c.isAlphanum || c == '_') = false)
          ∧ p1.m_ids[index]? = some (String.mk p.idRun)
          ∧ p1.m_code = p.m_code
          ∧ p.m_rowIt + p.idRun.length ≤ p.line.length
          ∧ (p.m_rowIt + p.idRun.length < p.line.length →
              p1.m_lineIt = p.m_lineIt ∧ p1.m_rowIt = p.m_rowIt + p.idRun.length)
          ∧ (p.m_rowIt + p.idRun.length = p.line.length → p1.m_lineIt = p.m_lineIt + 1)
          ∧ (∀ (i : Nat) (s : String), p.m_ids[i]? = some s → p1.m_ids[i]? = some s)
          ∧ (p.m_ids.Nodup → p1.m_ids.Nodup))
    ∧ (∀ p0, IdCalls t p0 p → p0.m_ids.Nodup →
        p.m_ids.Nodup
        ∧ ∀ (i : Nat) (s : String), p0.m_ids[i]? = some s → p.m_ids[i]? = some s) := by
  refine ⟨?_, ?_, ?_⟩
  · constructor
    · intro hnone
      by_cases hstart : (p.peek 0).isAlpha = false ∧ p.peek 0 ≠ '_'
      · exact hstart
      · rw [parseId_eq t p hstart] at hnone
        cases hnone
    · intro hstart
      simp [parseId, hstart]
  · intro token p1 hcall
    by_cases hstart : (p.peek 0).isAlpha = false ∧ p.peek 0 ≠ '_'
    · simp [parseId, hstart] at hcall
    · have htable := parseId_table t p p1 token hcall
      obtain ⟨hlt, ⟨rest, hrest⟩, hle⟩ := idRun_facts p hstart
      rw [parseId_eq t p hstart] at hcall
      simp only [Option.some.injEq, Prod.mk.injEq] at hcall
      obtain ⟨htok, hp1⟩ := hcall
      have hins := idTable_insert p.m_ids (String.mk p.idRun)
      have hkeep := advanceRowIterator_tables t
        { p with m_ids :=
            if p.m_ids.indexOf (String.mk p.idRun) = p.m_ids.length
            then p.m_ids ++ [String.mk p.idRun] else p.m_ids } p.idRun.length
      rw [hp1] at hkeep
      refine ⟨_, rest, htok.symm, hrest, ?_, ?_, ?_, ?_, hkeep.1, hle, ?_, ?_,
        fun i s hi => prefix_getElem? _ _ htable.1 i s hi, htable.2⟩
      · cases hv : (p.peek 0).isAlpha with
        | true => exact Or.inl rfl
        | false =>
          right
          by_contra hu
          exact hstart ⟨hv, hu⟩
      · intro c hc
        exact @List.mem_takeWhile_imp Char (fun c => c.isAlphanum || c == '_') _ c hc
      · intro c hc
        apply takeWhile_next_rejected (fun c => c.isAlphanum || c == '_') (p.line.drop p.m_rowIt) c
        rw [List.getElem?_drop]
        exact hc
      · rw [hkeep.2.2.1]
        exact hins.1
      · intro hin
        have hadv := advanceRowIterator_inside t
          { p with m_ids :=
              if p.m_ids.indexOf (String.mk p.idRun) = p.m_ids.length
              then p.m_ids ++ [String.mk p.idRun] else p.m_ids } p.idRun.length hin
        rw [hp1] at hadv
        rw [hadv]
        exact ⟨rfl, rfl⟩
      · intro hend
        have hline := advanceRowIterator_to_end_line t
          { p with m_ids :=
              if p.m_ids.indexOf (String.mk p.idRun) = p.m_ids.length
              then p.m_ids ++ [String.mk p.idRun] else p.m_ids } p.idRun.length hend
        rw [hp1] at hline
        exact hline
  · intro p0 hcalls hnd
    have htable := idCalls_table t p0 p hcalls
    exact ⟨htable.2 hnd, fun i s hi => prefix_getElem? _ _ htable.1 i s hi⟩

/-- C22, evaluated: at the start of the line `foo_1+x` with the table
`["x"]`, `parseId` consumes `foo_1`, appends it to the table and returns the
index 1; a second call on `x` returns the index 0 without a new entry. -/
theorem parseId_identifier_table_witness :
    parseId demoTables { Parser.ofLines ["foo_1+x"] with m_ids := ["x"] }
      = some (Token.IdToken 0 0 1,
          { m_code := ["foo_1+x"], m_lineIt := 0, m_rowIt := 5, m_tokens := [],
            m_ids := ["x", "foo_1"], m_ints := [] })
    ∧ parseId demoTables
        { m_code := ["foo_1+x"], m_lineIt := 0, m_rowIt := 6, m_tokens := [],
          m_ids := ["x", "foo_1"], m_ints := [] }
      = some (Token.IdToken 0 6 0,
          { m_code := ["foo_1+x"], m_lineIt := 1, m_rowIt := 7, m_tokens := [],
            m_ids := ["x", "foo_1"], m_ints := [] })
    ∧ (["x", "foo_1"] : List String).Nodup := by
  have hrun : parseId demoTables { Parser.ofLines ["foo_1+x"] with m_ids := ["x"] }
      = some (Token.IdToken 0 0 1,
          { m_code := ["foo_1+x"], m_lineIt := 0, m_rowIt := 5, m_tokens := [],
            m_ids := ["x", "foo_1"], m_ints := [] }) := by rfl
  obtain ⟨_, _, _, _, _, _, _, _, _, _, _, _, _, hnd⟩ :=
    (parseId_identifier_table demoTables
      { Parser.ofLines ["foo_1+x"] with m_ids := ["x"] }).2.1 _ _ hrun
  exact ⟨hrun, by rfl, hnd (by decide)⟩

/-! ## Integer constants of the source -/

theorem digitRun_facts (p : Parser) (hdigit : (p.peek 0).isDigit = true) :
    p.m_rowIt < p.line.length
    ∧ (∃ rest, p.digitRun = p.peek 0 :: rest)
    ∧ p.m_rowIt + p.digitRun.length ≤ p.line.length := by
  have hlt : p.m_rowIt < p.line.length := by
    rcases Nat.lt_or_ge p.m_rowIt p.line.length with h | h
    · exact h
    · rw [peek_zero_of_ge p h] at hdigit
      exact absurd hdigit (by decide)
  refine ⟨hlt, ?_, ?_⟩
  · refine ⟨(p.line.drop (p.m_rowIt + 1)).takeWhile Char.isDigit, ?_⟩
    unfold Parser.digitRun
    rw [peek_zero_of_lt p hlt]
    exact @List.takeWhile_cons_of_pos Char Char.isDigit (p.peek 0) _ hdigit
  · have hle : p.digitRun.length ≤ (p.line.drop p.m_rowIt).length :=
      (List.takeWhile_sublist _).length_le
    rw [List.length_drop] at hle
    omega

theorem stoi_digitRun (p : Parser) (hdigit : (p.peek 0).isDigit = true) :
    stoi p.digitRun =
      if decimalValue p.digitRun > 2147483647 then StoiResult.out_of_range
      else StoiResult.value (decimalValue p.digitRun) := by
  obtain ⟨_, ⟨rest, hrest⟩, _⟩ := digitRun_facts p hdigit
  have hidem : p.digitRun.takeWhile Char.isDigit = p.digitRun := by
    unfold Parser.digitRun
    exact List.takeWhile_idem
  have hstoi : stoi (p.peek 0 :: rest) =
      if decimalValue ((p.peek 0 :: rest).takeWhile Char.isDigit) > 2147483647
      then StoiResult.out_of_range
      else StoiResult.value (decimalValue ((p.peek 0 :: rest).takeWhile Char.isDigit)) := by
    simp only [stoi, hdigit]
    simp
  rw [← hrest, hidem] at hstoi
  exact hstoi

theorem parseInt_too_large (t : Tables) (p : Parser) (hdigit : (p.peek 0).isDigit = true)
    (hbig : decimalValue p.digitRun > 2147483647) :
    parseInt t p = Except.error (ParsingError.mk p.m_rowIt p.m_lineIt constantTooLarge) := by
  have hscan : scanWhile Char.isDigit p p.fuel 0 = p.digitRun :=
    scanWhile_fuel _ (by decide) p
  have hstoi := stoi_digitRun p hdigit
  rw [if_pos hbig] at hstoi
  unfold parseInt
  simp only [hdigit, hscan, hstoi]
  simp

theorem parseInt_in_range (t : Tables) (p : Parser) (hdigit : (p.peek 0).isDigit = true)
    (hfit : ¬ decimalValue p.digitRun > 2147483647) :
    parseInt t p = Except.ok (some
      (Token.IntToken p.m_lineIt p.m_rowIt
        (if p.m_ints.indexOf (decimalValue p.digitRun : Int) = p.m_ints.length
          then p.m_ints.length else p.m_ints.indexOf (decimalValue p.digitRun : Int)),
       advanceRowIterator t
        { p with m_ints :=
            if p.m_ints.indexOf (decimalValue p.digitRun : Int) = p.m_ints.length
            then p.m_ints ++ [(decimalValue p.digitRun : Int)] else p.m_ints }
        p.digitRun.length)) := by
  have hscan : scanWhile Char.isDigit p p.fuel 0 = p.digitRun :=
    scanWhile_fuel _ (by decide) p
  have hstoi := stoi_digitRun p hdigit
  rw [if_neg hfit] at hstoi
  unfold parseInt
  simp only [hdigit, hscan, hstoi, Parser.getLineNumber, Parser.getColumnNumber]
  by_cases hfound : p.m_ints.indexOf (decimalValue p.digitRun : Int) = p.m_ints.length
  · simp [hfound]
  · simp [hfound]

theorem intTable_insert (ints : List Int) (v : Int) :
    (if ints.indexOf v = ints.length then ints ++ [v] else ints)[
        if ints.indexOf v = ints.length then ints.length else ints.indexOf v]? = some v
    ∧ (v ∈ ints →
        (if ints.indexOf v = ints.length then ints ++ [v] else ints) = ints
        ∧ (if ints.indexOf v = ints.length then ints.length else ints.indexOf v)
            = ints.indexOf v
        ∧ ints.indexOf v < ints.length)
    ∧ (v ∉ ints →
        (if ints.indexOf v = ints.length then ints ++ [v] else ints) = ints ++ [v]
        ∧ (if ints.indexOf v = ints.length then ints.length else ints.indexOf v)
            = ints.length) := by
  by_cases hfound : ints.indexOf v = ints.length
  · have hnot : v ∉ ints := List.indexOf_eq_length.mp hfound
    simp only [hfound, if_true]
    exact ⟨by simp, fun hmem => absurd hmem hnot, fun _ => ⟨trivial, trivial⟩⟩
  · have hlt : ints.indexOf v < ints.length :=
      Nat.lt_of_le_of_ne List.indexOf_le_length hfound
    have hmem : v ∈ ints := List.indexOf_lt_length.mp hlt
    simp only [hfound, if_false]
    exact ⟨List.getElem?_indexOf hmem, fun _ => ⟨trivial, trivial, hlt⟩,
      fun hnot => absurd hmem hnot⟩

theorem advanceRowIterator_inside_cursor (t : Tables) (p : Parser) (offset : Nat)
    (hin : p.m_rowIt + offset < p.line.length) :
    (advanceRowIterator t p offset).m_lineIt = p.m_lineIt
    ∧ (advanceRowIterator t p offset).m_rowIt = p.m_rowIt + offset := by
  rw [advanceRowIterator_inside t p offset hin]
  exact ⟨rfl, rfl⟩

/-- C23: with a decimal digit under the cursor, `parseInt` raises a
`ParsingError` if and only if the number denoted by the maximal run of
digits at the cursor is greater than 2147483647.  Otherwise it returns an
`IntToken` with the line and column of the run and an index that resolves in
the integer constant table to exactly that number: the index of the
existing entry, the table unchanged, when the number is already in the
table, and the index of a new last entry when it is not; earlier indices
resolve as before and the cursor is moved behind the run. -/
theorem parseInt_range_and_table (t : Tables) (p : Parser)
    (hdigit : (p.peek 0).isDigit = true) :
    ((∃ e, parseInt t p = Except.error e) ↔ 2147483647 < decimalValue p.digitRun)
    ∧ (decimalValue p.digitRun ≤ 2147483647 →
        ∃ index p1,
          parseInt t p = Except.ok
            (some (Token.IntToken p.getLineNumber p.getColumnNumber index, p1))
          ∧ p1.m_ints[index]? = some (decimalValue p.digitRun : Int)
          ∧ ((decimalValue p.digitRun : Int) ∈ p.m_ints →
              p1.m_ints = p.m_ints
              ∧ index = p.m_ints.indexOf (decimalValue p.digitRun : Int)
              ∧ index < p.m_ints.length)
          ∧ ((decimalValue p.digitRun : Int) ∉ p.m_ints →
              p1.m_ints = p.m_ints ++ [(decimalValue p.digitRun : Int)]
              ∧ index = p.m_ints.length)
          ∧ (∀ (i : Nat) (v : Int), p.m_ints[i]? = some v → p1.m_ints[i]? = some v)
          ∧ p1.m_code = p.m_code
          ∧ (p.m_rowIt + p.digitRun.length < p.line.length →
              p1.m_lineIt = p.m_lineIt ∧ p1.m_rowIt = p.m_rowIt + p.digitRun.length)
          ∧ (p.m_rowIt + p.digitRun.length = p.line.length →
              p1.m_lineIt = p.m_lineIt + 1)) := by
  constructor
  · constructor
    · rintro ⟨e, he⟩
      by_contra hfit
      rw [parseInt_in_range t p hdigit (by omega)] at he
      cases he
    · intro hbig
      exact ⟨_, parseInt_too_large t p hdigit hbig⟩
  · intro hfit
    have hrun := parseInt_in_range t p hdigit (by omega)
    have hins := intTable_insert p.m_ints (decimalValue p.digitRun : Int)
    have hkeep := advanceRowIterator_tables t
      { p with m_ints :=
          if p.m_ints.indexOf (decimalValue p.digitRun : Int) = p.m_ints.length
          then p.m_ints ++ [(decimalValue p.digitRun : Int)] else p.m_ints }
      p.digitRun.length
    refine ⟨_, _, hrun, ?_, ?_, ?_, ?_, hkeep.1, ?_, ?_⟩
    · rw [hkeep.2.2.2]
      exact hins.1
    · intro hmem
      rw [hkeep.2.2.2]
      exact ⟨(hins.2.1 hmem).1, (hins.2.1 hmem).2.1, by rw [(hins.2.1 hmem).2.1]; exact (hins.2.1 hmem).2.2⟩
    · intro hnot
      rw [hkeep.2.2.2]
      exact hins.2.2 hnot
    · intro i v hi
      rw [hkeep.2.2.2]
      by_cases hmem : (decimalValue p.digitRun : Int) ∈ p.m_ints
      · rw [(hins.2.1 hmem).1]
        exact hi
      · rw [(hins.2.2 hmem).1]
        have hlt : i < p.m_ints.length := by
          rcases Nat.lt_or_ge i p.m_ints.length with h1 | h1
          · exact h1
          · rw [List.getElem?_eq_none h1] at hi
            cases hi
        rw [List.getElem?_append_left hlt]
        exact hi
    · intro hin
      exact advanceRowIterator_inside_cursor t
        { p with m_ints :=
            if p.m_ints.indexOf (decimalValue p.digitRun : Int) = p.m_ints.length
            then p.m_ints ++ [(decimalValue p.digitRun : Int)] else p.m_ints }
        p.digitRun.length hin
    · intro hend
      exact advanceRowIterator_to_end_line t
        { p with m_ints :=
            if p.m_ints.indexOf (decimalValue p.digitRun : Int) = p.m_ints.length
            then p.m_ints ++ [(decimalValue p.digitRun : Int)] else p.m_ints }
        p.digitRun.length hend

/-- C23, evaluated: `2147483648` raises, `2147483647` does not and reuses
the entry at index 1 of the table `[5, 2147483647]`. -/
theorem parseInt_range_and_table_witness :
    (∃ e, parseInt demoTables (Parser.ofLines ["2147483648"]) = Except.error e)
    ∧ decimalValue (Parser.ofLines ["2147483648"]).digitRun = 2147483648
    ∧ parseInt demoTables { Parser.ofLines ["2147483647+1"] with m_ints := [5, 2147483647] }
      = Except.ok (some (Token.IntToken 0 0 1,
          { m_code := ["2147483647+1"], m_lineIt := 0, m_rowIt := 10, m_tokens := [],
            m_ids := [], m_ints := [5, 2147483647] })) :=
  ⟨(parseInt_range_and_table demoTables (Parser.ofLines ["2147483648"]) (by decide)).1.mpr
      (by decide), by decide, by rfl⟩

end SimpleLang
